import Mathlib

/-!
# Cities service (`main.go`): HTTP handlers over a document store and a relational store

A shallow embedding of the three request handlers of `main.go`
(`getCitiesMongo`, `createCitiesMssql`, `getCitiesMssql`) together with the
parts of the Go libraries they drive:

* `net/http`'s `ResponseWriter` (header map, status line, body bytes),
* `encoding/json`'s `Encoder.Encode` on the values the handlers pass to it,
* `database/sql`'s `*sql.DB` and the MongoDB driver's collection/cursor, as
  interfaces whose outcomes are arbitrary.

Go strings are modelled as Lean `String`s, Go `int`/`int64` as `Int` (the
handlers do no arithmetic on them), a Go `error` by its `Error()` text. The
globals `client` and `db` are arguments of the handlers, `none` being the nil
pointer; calling a method on a nil handle is a panic. Logging, contexts and the
deferred `Close` calls have no effect on the response and are left out.
-/

namespace CitiesService

/-! ## JSON values and the encoder of `encoding/json` -/

/-- JSON values. A number is `mant * 10 ^ exp`; integers have `exp = 0`. -/
inductive Json where
  | null : Json
  | bool (b : Bool) : Json
  | num (mant : Int) (exp : Int) : Json
  | str (s : String) : Json
  | arr (xs : List Json) : Json
  | obj (kvs : List (String × Json)) : Json

/-- Lower-case hexadecimal digit, as in the `hex` table of `encoding/json`. -/
def hexDigit (n : Nat) : Char :=
  if n < 10 then Char.ofNat (48 + n) else Char.ofNat (87 + n)

/-- The escape `encoding/json` writes for one character of a string (with
HTML escaping on, the default of `json.NewEncoder`). -/
def escapeChar (c : Char) : List Char :=
  if c = '"' then ['\\', '"']
  else if c = '\\' then ['\\', '\\']
  else if c = '\n' then ['\\', 'n']
  else if c = '\r' then ['\\', 'r']
  else if c = '\t' then ['\\', 't']
  else if c.toNat < 32 ∨ c = '<' ∨ c = '>' ∨ c = '&' then
    ['\\', 'u', '0', '0', hexDigit (c.toNat / 16), hexDigit (c.toNat % 16)]
  else if c.toNat = 0x2028 then ['\\', 'u', '2', '0', '2', '8']
  else if c.toNat = 0x2029 then ['\\', 'u', '2', '0', '2', '9']
  else [c]

/-- The characters of a JSON string literal for `s`, quotes included. -/
def encodeString (s : List Char) : List Char :=
  '"' :: (s.flatMap escapeChar ++ ['"'])

/-- Decimal digits of a natural number, most significant first; `fuel` bounds
the number of digits. -/
def natDigits : Nat → Nat → List Char → List Char
  | 0, _, acc => acc
  | fuel + 1, n, acc =>
    if n < 10 then Char.ofNat (48 + n) :: acc
    else natDigits fuel (n / 10) (Char.ofNat (48 + n % 10) :: acc)

/-- Decimal text of an integer (`strconv.AppendInt` in base 10). -/
def encodeInt (n : Int) : List Char :=
  match n with
  | Int.ofNat m => natDigits (m + 1) m []
  | Int.negSucc m => '-' :: natDigits (m + 2) (m + 1) []

mutual
/-- Compact JSON text of a value, as `encoding/json` writes it. -/
def Json.render : Json → List Char
  | .str s => encodeString s.data
  | .num m e => if e = 0 then encodeInt m else encodeInt m ++ 'e' :: encodeInt e
  | .arr xs => '[' :: (Json.renderElems xs ++ [']'])
  | .obj kvs => '{' :: (Json.renderFields kvs ++ ['}'])
  | .bool b => if b then "true".data else "false".data
  | .null => "null".data
/-- Comma-separated elements of an array. -/
def Json.renderElems : List Json → List Char
  | [] => []
  | [x] => Json.render x
  | x :: y :: rest => Json.render x ++ ',' :: Json.renderElems (y :: rest)
/-- Comma-separated members of an object. -/
def Json.renderFields : List (String × Json) → List Char
  | [] => []
  | [(k, v)] => encodeString k.data ++ ':' :: Json.render v
  | (k, v) :: kv :: rest =>
    encodeString k.data ++ ':' :: (Json.render v ++ ',' :: Json.renderFields (kv :: rest))
end

/-! ## JSON text: the grammar of RFC 8259, as a decoder -/

/-- JSON insignificant whitespace. -/
def isWs (c : Char) : Bool :=
  c = ' ' || c = '\n' || c = '\r' || c = '\t'

/-- Drop leading whitespace. -/
def skipWs : List Char → List Char
  | [] => []
  | c :: cs => if isWs c then skipWs cs else c :: cs

/-- Value of a hexadecimal digit. -/
def hexVal (c : Char) : Option Nat :=
  if '0' ≤ c ∧ c ≤ '9' then some (c.toNat - 48)
  else if 'a' ≤ c ∧ c ≤ 'f' then some (c.toNat - 87)
  else if 'A' ≤ c ∧ c ≤ 'F' then some (c.toNat - 55)
  else none

/-- Value of four hexadecimal digits. -/
def hex4 (a b c d : Char) : Option Nat :=
  match hexVal a, hexVal b, hexVal c, hexVal d with
  | some w, some x, some y, some z => some (((w * 16 + x) * 16 + y) * 16 + z)
  | _, _, _, _ => none

/-- The character a simple escape letter stands for. -/
def unescapeSimple (c : Char) : Option Char :=
  if c = '"' then some '"'
  else if c = '\\' then some '\\'
  else if c = '/' then some '/'
  else if c = 'b' then some (Char.ofNat 8)
  else if c = 'f' then some (Char.ofNat 12)
  else if c = 'n' then some '\n'
  else if c = 'r' then some '\r'
  else if c = 't' then some '\t'
  else none

/-- Decode the rest of a string literal, after its opening quote: the decoded
characters and the input left after the closing quote. An unpaired surrogate
escape decodes to U+FFFD. Every step consumes input, so a `fuel` of the input's
length is enough. -/
def parseStringBody : Nat → List Char → List Char → Option (List Char × List Char)
  | 0, _, _ => none
  | _ + 1, [], _ => none
  | fuel + 1, c :: rest, acc =>
    if c = '"' then some (acc.reverse, rest)
    else if c = '\\' then
      match rest with
      | [] => none
      | e :: rest1 =>
        if e = 'u' then
          match rest1 with
          | h1 :: h2 :: h3 :: h4 :: rest2 =>
            match hex4 h1 h2 h3 h4 with
            | none => none
            | some hi =>
              if 0xD800 ≤ hi ∧ hi < 0xDC00 then
                match rest2 with
                | b2 :: u2 :: l1 :: l2 :: l3 :: l4 :: rest3 =>
                  match hex4 l1 l2 l3 l4 with
                  | none => parseStringBody fuel rest2 (Char.ofNat 0xFFFD :: acc)
                  | some lo =>
                    if b2 = '\\' ∧ u2 = 'u' ∧ 0xDC00 ≤ lo ∧ lo < 0xE000 then
                      parseStringBody fuel rest3
                        (Char.ofNat (0x10000 + (hi - 0xD800) * 0x400 + (lo - 0xDC00)) :: acc)
                    else parseStringBody fuel rest2 (Char.ofNat 0xFFFD :: acc)
                | _ => parseStringBody fuel rest2 (Char.ofNat 0xFFFD :: acc)
              else if 0xDC00 ≤ hi ∧ hi < 0xE000 then
                parseStringBody fuel rest2 (Char.ofNat 0xFFFD :: acc)
              else parseStringBody fuel rest2 (Char.ofNat hi :: acc)
          | _ => none
        else
          match unescapeSimple e with
          | none => none
          | some u => parseStringBody fuel rest1 (u :: acc)
    else if c.toNat < 32 then none
    else parseStringBody fuel rest (c :: acc)

/-- Decode a string literal after its opening quote. -/
def parseString (cs : List Char) : Option (List Char × List Char) :=
  parseStringBody cs.length cs []

/-- Read a run of decimal digits: their value, their count, the input left. -/
def parseDigits : List Char → Nat → Nat → Nat × Nat × List Char
  | [], v, n => (v, n, [])
  | c :: cs, v, n =>
    if '0' ≤ c ∧ c ≤ '9' then parseDigits cs (v * 10 + (c.toNat - 48)) (n + 1)
    else (v, n, c :: cs)

/-- Optional exponent part `e[+-]digits` of a number. -/
def parseExponent (cs : List Char) : Option (Int × List Char) :=
  match cs with
  | c :: rest =>
    if c = 'e' ∨ c = 'E' then
      match rest with
      | '-' :: r =>
        match parseDigits r 0 0 with
        | (_, 0, _) => none
        | (v, _, r2) => some (-(v : Int), r2)
      | '+' :: r =>
        match parseDigits r 0 0 with
        | (_, 0, _) => none
        | (v, _, r2) => some ((v : Int), r2)
      | r =>
        match parseDigits r 0 0 with
        | (_, 0, _) => none
        | (v, _, r2) => some ((v : Int), r2)
    else some (0, c :: rest)
  | [] => some (0, [])

/-- Fraction and exponent after the integer part `ip` of a number. -/
def parseFracExp (neg : Bool) (ip : Nat) (cs : List Char) : Option (Json × List Char) :=
  let sign : Int := if neg then -1 else 1
  match cs with
  | '.' :: r =>
    match parseDigits r ip 0 with
    | (_, 0, _) => none
    | (v, n, r2) =>
      match parseExponent r2 with
      | none => none
      | some (e, r3) => some (Json.num (sign * (v : Int)) (e - (n : Int)), r3)
  | r =>
    match parseExponent r with
    | none => none
    | some (e, r3) => some (Json.num (sign * (ip : Int)) e, r3)

/-- Number without its sign: `0` or a digit run not starting with `0`. -/
def parseUnsigned (neg : Bool) (cs : List Char) : Option (Json × List Char) :=
  match cs with
  | '0' :: r => parseFracExp neg 0 r
  | c :: r =>
    if '1' ≤ c ∧ c ≤ '9' then
      match parseDigits (c :: r) 0 0 with
      | (v, _, r2) => parseFracExp neg v r2
    else none
  | [] => none

/-- A JSON number. -/
def parseNumber (cs : List Char) : Option (Json × List Char) :=
  match cs with
  | '-' :: r => parseUnsigned true r
  | r => parseUnsigned false r

mutual
/-- Decode one JSON value, skipping whitespace before it. -/
def parseValue : Nat → List Char → Option (Json × List Char)
  | 0, _ => none
  | fuel + 1, cs =>
    match skipWs cs with
    | 'n' :: 'u' :: 'l' :: 'l' :: rest => some (Json.null, rest)
    | 't' :: 'r' :: 'u' :: 'e' :: rest => some (Json.bool true, rest)
    | 'f' :: 'a' :: 'l' :: 's' :: 'e' :: rest => some (Json.bool false, rest)
    | '"' :: rest =>
      match parseString rest with
      | none => none
      | some (s, r) => some (Json.str (String.mk s), r)
    | '[' :: rest =>
      match skipWs rest with
      | ']' :: r => some (Json.arr [], r)
      | r =>
        match parseElems fuel r with
        | none => none
        | some (xs, r2) => some (Json.arr xs, r2)
    | '{' :: rest =>
      match skipWs rest with
      | '}' :: r => some (Json.obj [], r)
      | r =>
        match parseMembers fuel r with
        | none => none
        | some (kvs, r2) => some (Json.obj kvs, r2)
    | r => parseNumber r
/-- Decode the elements of a non-empty array up to the closing bracket. -/
def parseElems : Nat → List Char → Option (List Json × List Char)
  | 0, _ => none
  | fuel + 1, cs =>
    match parseValue fuel cs with
    | none => none
    | some (v, r) =>
      match skipWs r with
      | ',' :: r2 =>
        match parseElems fuel r2 with
        | none => none
        | some (vs, r3) => some (v :: vs, r3)
      | ']' :: r2 => some ([v], r2)
      | _ => none
/-- Decode the members of a non-empty object up to the closing brace. -/
def parseMembers : Nat → List Char → Option (List (String × Json) × List Char)
  | 0, _ => none
  | fuel + 1, cs =>
    match skipWs cs with
    | '"' :: rest =>
      match parseString rest with
      | none => none
      | some (k, r) =>
        match skipWs r with
        | ':' :: r1 =>
          match parseValue fuel r1 with
          | none => none
          | some (v, r2) =>
            match skipWs r2 with
            | ',' :: r3 =>
              match parseMembers fuel r3 with
              | none => none
              | some (kvs, r4) => some ((String.mk k, v) :: kvs, r4)
            | '}' :: r3 => some ([(String.mk k, v)], r3)
            | _ => none
        | _ => none
    | _ => none
end

/-- Decode a whole text as one JSON value (`none`: not well-formed JSON). -/
def parseJson (text : String) : Option Json :=
  match parseValue (2 * text.data.length + 2) text.data with
  | none => none
  | some (v, r) => if skipWs r = [] then some v else none

/-- The value of member `key` of an object; the last one wins when the name
is repeated, as in `encoding/json`. -/
def Json.member (key : String) : Json → Option Json
  | .obj kvs => (kvs.reverse.find? (fun kv => kv.1 = key)).map Prod.snd
  | _ => none

/-! ## `net/http`: the response writer and the request -/

/-- Status code `http.StatusOK`. -/
def StatusOK : Nat := 200

/-- Status code `http.StatusInternalServerError`. -/
def StatusInternalServerError : Nat := 500

/-- An incoming `*http.Request`, as far as a handler could read it. -/
structure Request where
  method : String
  url : String
  header : List (String × String)
  body : String

/-- State of an `http.ResponseWriter`. `status` is `none` until the status line
is written; `sentHeader` is the header map as it stood at that moment (later
changes of the map are not sent); `body` is the bytes written so far. -/
structure ResponseWriter where
  header : List (String × String)
  status : Option Nat
  sentHeader : List (String × String)
  body : String

/-- The writer the server hands to a handler: nothing set, nothing written. -/
def ResponseWriter.fresh : ResponseWriter :=
  { header := [], status := none, sentHeader := [], body := "" }

/-- Helper of `canonicalMIMEHeaderKey`: `up` says whether the next letter is
the first of a word. -/
def canonicalChars : Bool → List Char → List Char
  | _, [] => []
  | up, c :: cs =>
    (if up then c.toUpper else c.toLower) :: canonicalChars (c = '-') cs

/-- Canonical form of a header name (`textproto.CanonicalMIMEHeaderKey`, for
names made of letters, digits and hyphens): every word capitalised. -/
def canonicalMIMEHeaderKey (key : String) : String :=
  String.mk (canonicalChars true key.data)

/-- The call `w.Header().Set(key, value)`. -/
def ResponseWriter.HeaderSet (w : ResponseWriter) (key value : String) : ResponseWriter :=
  { w with header := (canonicalMIMEHeaderKey key, value) ::
      w.header.filter (fun kv => kv.1 ≠ canonicalMIMEHeaderKey key) }

/-- The call `w.WriteHeader(code)`: writes the status line with the current
header map; a second call has no effect. -/
def ResponseWriter.WriteHeader (w : ResponseWriter) (code : Nat) : ResponseWriter :=
  match w.status with
  | some _ => w
  | none => { w with status := some code, sentHeader := w.header }

/-- The call `w.Write(b)`: writes the status line with `StatusOK` first when
`WriteHeader` has not been called, then appends `b` to the body. -/
def ResponseWriter.Write (w : ResponseWriter) (b : String) : ResponseWriter :=
  let w1 := w.WriteHeader StatusOK
  { w1 with body := w1.body ++ b }

/-- Value of a header as it was sent with the status line. -/
def ResponseWriter.sent (w : ResponseWriter) (key : String) : Option String :=
  (w.sentHeader.find? (fun kv => kv.1 = canonicalMIMEHeaderKey key)).map Prod.snd

/-! ## Go values of `main.go` and their JSON encoding -/

/-- A Go slice built by `append` from a `var` declaration: `none` is the nil
slice, which is what the declaration leaves when nothing is appended. -/
abbrev Slice (α : Type) := Option (List α)

/-- The call `append(s, x)`. -/
def Slice.append {α : Type} (s : Slice α) (x : α) : Slice α :=
  match s with
  | none => some [x]
  | some xs => some (xs ++ [x])

/-- Elements of a slice (`nil` has none). -/
def Slice.elems {α : Type} (s : Slice α) : List α :=
  match s with
  | none => []
  | some xs => xs

/-- The type `primitive.ObjectID`, an array of 12 bytes. -/
structure ObjectID where
  bytes : List Nat

/-- The zero `ObjectID`. -/
def NilObjectID : ObjectID := ⟨List.replicate 12 0⟩

/-- The method `ObjectID.Hex`. -/
def ObjectID.Hex (id : ObjectID) : String :=
  String.mk (id.bytes.flatMap fun b => [hexDigit (b / 16 % 16), hexDigit (b % 16)])

/-- The struct `mongoCity`. -/
structure mongoCity where
  ID : ObjectID
  City : String
  Country : String

/-- The struct `mssqlCity`. -/
structure mssqlCity where
  ID : Int
  Name : String
  Country : String

/-- JSON of an `int`/`int64`. -/
def marshalInt (n : Int) : Json := Json.num n 0

/-- JSON of a `mssqlCity`: no field tags, so the members are the exported field
names in declaration order. -/
def marshalMssqlCity (c : mssqlCity) : Json :=
  Json.obj [("ID", marshalInt c.ID), ("Name", Json.str c.Name), ("Country", Json.str c.Country)]

/-- JSON of a `mongoCity` under its tags: `_id` is the hex string of the
identifier (`omitempty` never drops a 12-byte array), `city` and `country` are
dropped when empty. -/
def marshalMongoCity (c : mongoCity) : Json :=
  Json.obj ([("_id", Json.str c.ID.Hex)]
    ++ (if c.City = "" then [] else [("city", Json.str c.City)])
    ++ (if c.Country = "" then [] else [("country", Json.str c.Country)]))

/-- JSON of a slice: `null` for the nil slice, an array otherwise. -/
def marshalSlice {α : Type} (f : α → Json) (s : Slice α) : Json :=
  match s with
  | none => Json.null
  | some xs => Json.arr (xs.map f)

/-- The call `json.NewEncoder(w).Encode(v)` for a value whose JSON is `j`: one
`Write` of the compact text followed by a newline. -/
def Encode (w : ResponseWriter) (j : Json) : ResponseWriter :=
  w.Write (String.mk j.render ++ "\n")

/-! ## The stores, as the handlers see them

A Go `error` is its `Error()` text; `none` is the nil error. The relational
store carries a state `σ` that every call may change. -/

/-- A named statement argument, `sql.Named(Name, Value)`. -/
structure NamedArg where
  Name : String
  Value : String
deriving DecidableEq

/-- What `rows.Scan(&id, &name, &country)` does on one row: the three column
values, converted positionally into `id`, `name`, `country`, or an error. -/
abbrev ScanResult := Except String (Int × String × String)

/-- A non-nil `*sql.DB` over a store in state `σ`.
`QueryContext` yields the rows `rows.Next()` steps through, each with the
outcome of its `Scan`. `QueryRowContext` is `stmt.QueryRowContext(ctx, args...)`
followed by `row.Scan(&newID)` on the statement prepared from the given text. -/
structure DB (σ : Type) where
  PingContext : σ → Option String × σ
  QueryContext : String → σ → Except String (List ScanResult) × σ
  Prepare : String → σ → Option String × σ
  QueryRowContext : String → List NamedArg → σ → Except String Int × σ

/-- A `*mongo.Cursor`: for each document `Next` yields, the value `Decode`
leaves in a zero `mongoCity` and the error `Decode` returns; and the error
`Err()` reports once `Next` has returned false. -/
structure Cursor where
  docs : List (mongoCity × Option String)
  err : Option String

/-- A non-nil `*mongo.Client`: `Find database collection` is
`client.Database(database).Collection(collection).Find(ctx, bson.M{})`. -/
structure Client where
  Find : String → String → Except String Cursor

/-- A call a handler makes on a store. -/
inductive StoreCall where
  | PingContext : StoreCall
  | QueryContext (query : String) : StoreCall
  | RowsScan : StoreCall
  | Prepare (query : String) : StoreCall
  | QueryRowContext (query : String) (args : List NamedArg) : StoreCall
  | Find (database collection : String) : StoreCall
  | Decode : StoreCall
  | CursorErr : StoreCall
deriving DecidableEq

/-- A store call together with the error it returned. -/
structure StoreStep where
  call : StoreCall
  err : Option String
deriving DecidableEq

/-- Whether the handlers test the error of this call. `cursor.Decode(&city)` is
the one call whose result is dropped. -/
def StoreCall.checked : StoreCall → Bool
  | .Decode => false
  | _ => true

/-- What one run of a handler did: the response as the writer holds it when the
handler stops, whether it stopped by a run-time panic (nil pointer dereference;
the server then drops the connection without sending a response), and the store
calls it made, in order. -/
structure Outcome where
  response : ResponseWriter
  panicked : Bool
  steps : List StoreStep

/-- The status the client receives: none when the handler panicked. -/
def Outcome.status (o : Outcome) : Option Nat :=
  if o.panicked then none else o.response.status

/-! ## The handlers of `main.go` -/

/-- The loop `for cursor.Next(ctx) { var city mongoCity; cursor.Decode(&city);
cities = append(cities, city) }` of `getCitiesMongo`. -/
def decodeLoop : List (mongoCity × Option String) → Slice mongoCity → List StoreStep →
    Slice mongoCity × List StoreStep
  | [], cities, steps => (cities, steps)
  | (city, derr) :: rest, cities, steps =>
    decodeLoop rest (cities.append city) (steps ++ [⟨StoreCall.Decode, derr⟩])

/-- The handler `getCitiesMongo`, with the global `client`. It calls
`client.Database` without testing `client`, which on a nil `client`
dereferences a nil pointer. -/
def getCitiesMongo (client : Option Client) (response : ResponseWriter) (_request : Request) :
    Outcome :=
  let response := response.HeaderSet "content-type" "application/json"
  let cities : Slice mongoCity := none
  match client with
  | none => ⟨response, true, []⟩
  | some client =>
    match client.Find "CitiesService" "cities" with
    | .error err =>
      let response := response.WriteHeader StatusInternalServerError
      let response := response.Write ("\x7b \"message\": \"" ++ err ++ "\" \x7d")
      ⟨response, false, [⟨StoreCall.Find "CitiesService" "cities", some err⟩]⟩
    | .ok cursor =>
      match decodeLoop cursor.docs cities [⟨StoreCall.Find "CitiesService" "cities", none⟩] with
      | (cities, steps) =>
        match cursor.err with
        | some err =>
          let response := response.WriteHeader StatusInternalServerError
          let response := response.Write ("\x7b \"message\": \"" ++ err ++ "\" \x7d")
          ⟨response, false, steps ++ [⟨StoreCall.CursorErr, some err⟩]⟩
        | none =>
          ⟨Encode response (marshalSlice marshalMongoCity cities), false,
            steps ++ [⟨StoreCall.CursorErr, none⟩]⟩

/-- The handler `createCitiesMssql`, with the global `db`. -/
def createCitiesMssql {σ : Type} (db : Option (DB σ)) (response : ResponseWriter)
    (_request : Request) (s : σ) : Outcome × σ :=
  let name := "Warsaw"
  let country := "Poland"
  match db with
  | none =>
    let err := "CreateEmployee: db is null"
    let response := response.WriteHeader StatusInternalServerError
    let response := response.Write ("\x7b \"message\": \"" ++ err ++ "\" \x7d")
    (⟨response, false, []⟩, s)
  | some db =>
    match db.PingContext s with
    | (some err, s) =>
      let response := response.WriteHeader StatusInternalServerError
      let response := response.Write ("\x7b \"message\": \"" ++ err ++ "\" \x7d")
      (⟨response, false, [⟨StoreCall.PingContext, some err⟩]⟩, s)
    | (none, s) =>
      let tsql := "INSERT INTO Cities (Name, Country) VALUES (@Name, @Country); select convert(bigint, SCOPE_IDENTITY());"
      match db.Prepare tsql s with
      | (some err, s) =>
        let response := response.WriteHeader StatusInternalServerError
        let response := response.Write ("\x7b \"message\": \"" ++ err ++ "\" \x7d")
        (⟨response, false, [⟨StoreCall.PingContext, none⟩, ⟨StoreCall.Prepare tsql, some err⟩]⟩, s)
      | (none, s) =>
        let args := [NamedArg.mk "Name" name, NamedArg.mk "Country" country]
        match db.QueryRowContext tsql args s with
        | (.error err, s) =>
          let response := response.WriteHeader StatusInternalServerError
          let response := response.Write ("\x7b \"message\": \"" ++ err ++ "\" \x7d")
          (⟨response, false, [⟨StoreCall.PingContext, none⟩, ⟨StoreCall.Prepare tsql, none⟩,
            ⟨StoreCall.QueryRowContext tsql args, some err⟩]⟩, s)
        | (.ok newID, s) =>
          (⟨Encode response (marshalInt newID), false, [⟨StoreCall.PingContext, none⟩,
            ⟨StoreCall.Prepare tsql, none⟩, ⟨StoreCall.QueryRowContext tsql args, none⟩]⟩, s)

/-- The loop `for rows.Next() { ... rows.Scan(&id, &name, &country) ... }` of
`getCitiesMssql`: the error of the first failing scan, at which the handler
replies and returns, or the slice of all the cities. -/
def scanLoop : List ScanResult → Slice mssqlCity → List StoreStep →
    Except String (Slice mssqlCity) × List StoreStep
  | [], cities, steps => (.ok cities, steps)
  | .error err :: _, _, steps => (.error err, steps ++ [⟨StoreCall.RowsScan, some err⟩])
  | .ok (id, name, country) :: rest, cities, steps =>
    let city : mssqlCity := ⟨id, name, country⟩
    scanLoop rest (cities.append city) (steps ++ [⟨StoreCall.RowsScan, none⟩])

/-- The handler `getCitiesMssql`, with the global `db`. It calls
`db.PingContext` without testing `db`, which on a nil `db` dereferences a nil
pointer. -/
def getCitiesMssql {σ : Type} (db : Option (DB σ)) (response : ResponseWriter)
    (_request : Request) (s : σ) : Outcome × σ :=
  let response := response.HeaderSet "content-type" "application/json"
  match db with
  | none => (⟨response, true, []⟩, s)
  | some db =>
    match db.PingContext s with
    | (some err, s) =>
      let response := response.WriteHeader StatusInternalServerError
      let response := response.Write ("\x7b \"message\": \"" ++ err ++ "\" \x7d")
      (⟨response, false, [⟨StoreCall.PingContext, some err⟩]⟩, s)
    | (none, s) =>
      let tsql := "SELECT Id, Name, Country FROM Cities;"
      match db.QueryContext tsql s with
      | (.error err, s) =>
        let response := response.WriteHeader StatusInternalServerError
        let response := response.Write ("\x7b \"message\": \"" ++ err ++ "\" \x7d")
        (⟨response, false, [⟨StoreCall.PingContext, none⟩, ⟨StoreCall.QueryContext tsql, some err⟩]⟩, s)
      | (.ok rows, s) =>
        let cities : Slice mssqlCity := none
        match scanLoop rows cities [⟨StoreCall.PingContext, none⟩, ⟨StoreCall.QueryContext tsql, none⟩] with
        | (.error err, steps) =>
          let response := response.WriteHeader StatusInternalServerError
          let response := response.Write ("\x7b \"message\": \"" ++ err ++ "\" \x7d")
          (⟨response, false, steps⟩, s)
        | (.ok cities, steps) =>
          (⟨Encode response (marshalSlice marshalMssqlCity cities), false, steps⟩, s)

/-- A relational store without state that answers every call the same way. -/
def fixedDB (ping : Option String) (query : Except String (List ScanResult))
    (prepare : Option String) (insert : Except String Int) : DB Unit where
  PingContext s := (ping, s)
  QueryContext _ s := (query, s)
  Prepare _ s := (prepare, s)
  QueryRowContext _ _ s := (insert, s)

/-- A document store whose `Find` always has the given outcome. -/
def fixedClient (find : Except String Cursor) : Client where
  Find _ _ := find

/-- A request with nothing in it. -/
def emptyRequest (method url : String) : Request :=
  { method := method, url := url, header := [], body := "" }

/-- The `Cities` table: its rows in storage order and the value the identity
column gives to the next inserted row. -/
structure CitiesTable where
  rows : List mssqlCity
  identity : Int

/-- The freshly created table: no rows, identity seeded at 1. -/
def CitiesTable.empty : CitiesTable := { rows := [], identity := 1 }

/-- Every identifier in the table was handed out by the identity column. -/
def CitiesTable.wellFormed (t : CitiesTable) : Prop :=
  ∀ r ∈ t.rows, r.ID < t.identity

/-- Value bound to the parameter `name` among the arguments of a statement. -/
def namedValue (args : List NamedArg) (name : String) : Option String :=
  (args.find? (fun a => a.Name = name)).map NamedArg.Value

/-- A healthy relational store holding the `Cities` table: the select of
`getCitiesMssql` yields the rows in order, the insert of `createCitiesMssql`
appends a row made of the bound `Name` and `Country` under the next identity
value and returns that value; any other statement is an error. -/
def CitiesTable.db : DB CitiesTable where
  PingContext t := (none, t)
  QueryContext q t :=
    if q = "SELECT Id, Name, Country FROM Cities;" then
      (.ok (t.rows.map fun r => .ok (r.ID, r.Name, r.Country)), t)
    else (.error "mssql: unsupported statement", t)
  Prepare _ t := (none, t)
  QueryRowContext q args t :=
    if q = "INSERT INTO Cities (Name, Country) VALUES (@Name, @Country); select convert(bigint, SCOPE_IDENTITY());" then
      match namedValue args "Name", namedValue args "Country" with
      | some name, some country =>
        (.ok t.identity,
          { rows := t.rows ++ [⟨t.identity, name, country⟩], identity := t.identity + 1 })
      | _, _ => (.error "mssql: must declare the scalar variable", t)
    else (.error "mssql: unsupported statement", t)

/-! ## Vocabulary of the statements -/

/-- The text every error branch of the handlers writes for the error `e`. -/
def messageBody (e : String) : String := "\x7b \"message\": \"" ++ e ++ "\" \x7d"

/-- Some checked store call among `steps` returned an error. -/
def anyCheckedFailed (steps : List StoreStep) : Prop :=
  ∃ st ∈ steps, st.call.checked = true ∧ st.err ≠ none

/-- The cities `scanLoop` collects from rows that all scan well. -/
def scannedCities (rows : List (Int × String × String)) : List mssqlCity :=
  rows.map fun r => ⟨r.1, r.2.1, r.2.2⟩

/-- The status contract of a handler run: 500 exactly when a checked store step
failed, 200 exactly when none did. -/
def statusContract (o : Outcome) : Prop :=
  (o.status = some 500 ↔ anyCheckedFailed o.steps) ∧
  (o.status = some 200 ↔ ¬ anyCheckedFailed o.steps) ∧
  (o.status = some 200 ∨ o.status = some 500)

/-- The JSON object of one row of the `Cities` query: members `ID`, `Name`,
`Country`, holding the first, second and third column. -/
def cityObject (r : Int × String × String) : Json :=
  Json.obj [("ID", Json.num r.1 0), ("Name", Json.str r.2.1), ("Country", Json.str r.2.2)]

/-- A decimal digit character. -/
def isDigitChar (c : Char) : Prop := '0' ≤ c ∧ c ≤ '9'

instance decidableIsDigitChar (c : Char) : Decidable (isDigitChar c) :=
  inferInstanceAs (Decidable ('0' ≤ c ∧ c ≤ '9'))

/-- The text does not go on with a digit. -/
def noDigitAhead : List Char → Prop
  | [] => True
  | c :: _ => ¬ isDigitChar c

/-- The text does not go on with a character that would extend a number. -/
def numberEnds : List Char → Prop
  | [] => True
  | c :: _ => ¬ isDigitChar c ∧ c ≠ '.' ∧ c ≠ 'e' ∧ c ≠ 'E'

/-- A character a rendered JSON value can begin with. -/
def valueStart (c : Char) : Prop :=
  isDigitChar c ∨ c = '-' ∨ c = '"' ∨ c = '[' ∨ c = '{' ∨ c = 't' ∨ c = 'f' ∨ c = 'n'

instance decidableValueStart (c : Char) : Decidable (valueStart c) :=
  inferInstanceAs (Decidable (isDigitChar c ∨ c = '-' ∨ c = '"' ∨ c = '[' ∨ c = '{' ∨ c = 't' ∨ c = 'f' ∨ c = 'n'))

/-- The document store fails `getCitiesMongo`: the find returns an error, or
the cursor it returns reports an error after the iteration. (Errors of `Decode`
do not count: the handler drops them.) -/
def mongoListFails (client : Client) : Prop :=
  (∃ e, client.Find "CitiesService" "cities" = .error e) ∨
  (∃ cursor e, client.Find "CitiesService" "cities" = .ok cursor ∧ cursor.err = some e)

/-- The relational store, in state `s`, fails `createCitiesMssql`: the ping
returns an error, or after it the prepare does, or after both the insert
does. -/
def mssqlInsertFails {σ : Type} (db : DB σ) (s : σ) : Prop :=
  (∃ e s1, db.PingContext s = (some e, s1)) ∨
  (∃ e s1 s2, db.PingContext s = (none, s1) ∧
    db.Prepare
      "INSERT INTO Cities (Name, Country) VALUES (@Name, @Country); select convert(bigint, SCOPE_IDENTITY());"
      s1 = (some e, s2)) ∨
  (∃ e s1 s2 s3, db.PingContext s = (none, s1) ∧
    db.Prepare
      "INSERT INTO Cities (Name, Country) VALUES (@Name, @Country); select convert(bigint, SCOPE_IDENTITY());"
      s1 = (none, s2) ∧
    db.QueryRowContext
      "INSERT INTO Cities (Name, Country) VALUES (@Name, @Country); select convert(bigint, SCOPE_IDENTITY());"
      [⟨"Name", "Warsaw"⟩, ⟨"Country", "Poland"⟩] s2 = (.error e, s3))

/-- The relational store, in state `s`, fails `getCitiesMssql`: the ping
returns an error, or after it the query does, or the rows the query yields hold
a row whose scan returns an error. -/
def mssqlListFails {σ : Type} (db : DB σ) (s : σ) : Prop :=
  (∃ e s1, db.PingContext s = (some e, s1)) ∨
  (∃ e s1 s2, db.PingContext s = (none, s1) ∧
    db.QueryContext "SELECT Id, Name, Country FROM Cities;" s1 = (.error e, s2)) ∨
  (∃ s1 s2 rows, db.PingContext s = (none, s1) ∧
    db.QueryContext "SELECT Id, Name, Country FROM Cities;" s1 = (.ok rows, s2) ∧
    ∃ r ∈ rows, ∃ e, r = Except.error e)

/-- The status of a run is 500 exactly when the store failed it, 200 exactly
when the store did not, and nothing else. -/
def statusFollows (o : Outcome) (storeFails : Prop) : Prop :=
  (o.status = some 500 ↔ storeFails) ∧
  (o.status = some 200 ↔ ¬ storeFails) ∧
  (o.status = some 200 ∨ o.status = some 500)

/-! ## Helper lemmas: decoding what the encoder writes -/

theorem digit_spec (d : Nat) (h : d < 10) :
    isDigitChar (Char.ofNat (48 + d)) ∧ (Char.ofNat (48 + d)).toNat - 48 = d := by
  interval_cases d <;> decide

theorem digit_pos (d : Nat) (h0 : 0 < d) (h : d < 10) :
    '1' ≤ Char.ofNat (48 + d) ∧ Char.ofNat (48 + d) ≠ '0' := by
  interval_cases d <;> decide

theorem parseDigits_cons_digit (c : Char) (cs : List Char) (v n : Nat) (h : isDigitChar c) :
    parseDigits (c :: cs) v n = parseDigits cs (v * 10 + (c.toNat - 48)) (n + 1) := by
  simp only [parseDigits]
  exact if_pos h

theorem parseDigits_stop (cs : List Char) (v n : Nat) (h : noDigitAhead cs) :
    parseDigits cs v n = (v, n, cs) := by
  cases cs with
  | nil => rfl
  | cons c t =>
    simp only [parseDigits]
    exact if_neg h

theorem parseDigits_natDigits (fuel n : Nat) (acc rest : List Char) (h : n < fuel) :
    ∃ k, parseDigits (natDigits fuel n acc ++ rest) 0 0 = parseDigits (acc ++ rest) n (k + 1) := by
  induction fuel generalizing n acc with
  | zero => omega
  | succ f ih =>
    simp only [natDigits]
    by_cases h10 : n < 10
    · rw [if_pos h10]
      refine ⟨0, ?_⟩
      have hd := digit_spec n h10
      rw [List.cons_append, parseDigits_cons_digit _ _ _ _ hd.1, hd.2]
      simp
    · rw [if_neg h10]
      obtain ⟨k, hk⟩ := ih (n / 10) (Char.ofNat (48 + n % 10) :: acc) (by omega)
      refine ⟨k + 1, ?_⟩
      have hd := digit_spec (n % 10) (by omega)
      rw [hk, List.cons_append, parseDigits_cons_digit _ _ _ _ hd.1, hd.2]
      congr 1
      omega

theorem natDigits_head (fuel n : Nat) (acc : List Char) (h : n < fuel) :
    ∃ c tl, natDigits fuel n acc = c :: tl ∧ isDigitChar c ∧
      (n = 0 → c = '0' ∧ tl = acc) ∧ (0 < n → '1' ≤ c ∧ c ≠ '0') := by
  induction fuel generalizing n acc with
  | zero => omega
  | succ f ih =>
    simp only [natDigits]
    by_cases h10 : n < 10
    · rw [if_pos h10]
      refine ⟨_, _, rfl, (digit_spec n h10).1, ?_, ?_⟩
      · intro h0
        subst h0
        exact ⟨rfl, rfl⟩
      · intro h0
        exact digit_pos n h0 h10
    · rw [if_neg h10]
      obtain ⟨c, tl, he, hd, _, hpos⟩ := ih (n / 10) (Char.ofNat (48 + n % 10) :: acc) (by omega)
      refine ⟨c, tl, he, hd, ?_, ?_⟩
      · intro h0
        omega
      · intro _
        exact hpos (by omega)

theorem numberEnds_noDigit (cs : List Char) (h : numberEnds cs) : noDigitAhead cs := by
  cases cs with
  | nil => trivial
  | cons c t => exact h.1

theorem parseExponent_stop (rest : List Char) (h : numberEnds rest) :
    parseExponent rest = some (0, rest) := by
  cases rest with
  | nil => rfl
  | cons c t =>
    obtain ⟨_, _, he, hE⟩ := h
    simp [parseExponent, he, hE]

theorem parseFracExp_stop (neg : Bool) (v : Nat) (rest : List Char) (h : numberEnds rest) :
    parseFracExp neg v rest = some (Json.num ((if neg then -1 else 1) * (v : Int)) 0, rest) := by
  have hx := parseExponent_stop rest h
  cases rest with
  | nil => simp [parseFracExp, hx]
  | cons c t =>
    have hdot : c ≠ '.' := h.2.1
    cases neg <;>
    · simp only [parseFracExp]
      split
      · rename_i heq
        simp at heq
        exact absurd heq.1 hdot
      · simp [hx]

theorem parseDigits_natDigits_stop (n : Nat) (tl : List Char) (h : noDigitAhead tl) :
    ∃ k, parseDigits (natDigits (n + 1) n [] ++ tl) 0 0 = (n, k + 1, tl) := by
  obtain ⟨k, hk⟩ := parseDigits_natDigits (n + 1) n [] tl (by omega)
  refine ⟨k, ?_⟩
  rw [hk, List.nil_append, parseDigits_stop _ _ _ h]

theorem parseUnsigned_natDigits (neg : Bool) (n : Nat) (tl : List Char) (h : noDigitAhead tl) :
    parseUnsigned neg (natDigits (n + 1) n [] ++ tl) = parseFracExp neg n tl := by
  obtain ⟨k, hk⟩ := parseDigits_natDigits_stop n tl h
  obtain ⟨c, t, he, hd, h0, hpos⟩ := natDigits_head (n + 1) n [] (by omega)
  rw [he] at hk
  rw [he]
  rcases Nat.eq_zero_or_pos n with hn | hn
  · obtain ⟨hc, ht⟩ := h0 hn
    subst hc ht hn
    rfl
  · obtain ⟨h1, hne⟩ := hpos hn
    simp only [List.cons_append] at hk ⊢
    unfold parseUnsigned
    split
    · rename_i heq
      simp at heq
      exact absurd heq.1 hne
    · rename_i c2 r2 _ heq
      simp at heq
      obtain ⟨hc, hr⟩ := heq
      subst hc hr
      rw [if_pos ⟨h1, hd.2⟩, hk]
    · rename_i heq
      simp at heq

theorem encodeInt_ofNat (n : Nat) : encodeInt (Int.ofNat n) = natDigits (n + 1) n [] := rfl

theorem encodeInt_negSucc (k : Nat) :
    encodeInt (Int.negSucc k) = '-' :: natDigits (k + 1 + 1) (k + 1) [] := rfl

theorem parseExponent_encodeInt (e : Int) (rest : List Char) (h : numberEnds rest) :
    parseExponent ('e' :: (encodeInt e ++ rest)) = some (e, rest) := by
  have hnd := numberEnds_noDigit rest h
  cases e with
  | ofNat n =>
    obtain ⟨k, hk⟩ := parseDigits_natDigits_stop n rest hnd
    obtain ⟨c, t, he, hd, _, _⟩ := natDigits_head (n + 1) n [] (by omega)
    rw [encodeInt_ofNat]
    rw [he] at hk
    rw [he]
    have hm : c ≠ '-' := by
      rintro rfl
      exact absurd hd (by decide)
    have hp : c ≠ '+' := by
      rintro rfl
      exact absurd hd (by decide)
    simp only [parseExponent, List.cons_append] at hk ⊢
    simp only [true_or, if_true]
    split
    · rename_i heq
      simp at heq
      exact absurd heq.1 hm
    · rename_i heq
      simp at heq
      exact absurd heq.1 hp
    · rw [hk]
      rfl
  | negSucc n =>
    obtain ⟨k, hk⟩ := parseDigits_natDigits_stop (n + 1) rest hnd
    rw [encodeInt_negSucc]
    simp only [parseExponent, List.cons_append, true_or, if_true, hk]
    rfl

theorem parseFracExp_exp (neg : Bool) (v : Nat) (e : Int) (rest : List Char)
    (h : numberEnds rest) :
    parseFracExp neg v ('e' :: (encodeInt e ++ rest)) =
      some (Json.num ((if neg then -1 else 1) * (v : Int)) e, rest) := by
  have hx := parseExponent_encodeInt e rest h
  cases neg <;>
  · simp only [parseFracExp]
    split
    · rename_i heq
      simp at heq
    · simp [hx]

theorem parseNumber_encodeInt (m : Int) (tl : List Char) (h : noDigitAhead tl) :
    ∃ neg v, parseNumber (encodeInt m ++ tl) = parseFracExp neg v tl ∧
      (if neg then -1 else 1) * (v : Int) = m := by
  cases m with
  | ofNat n =>
    refine ⟨false, n, ?_, by simp⟩
    obtain ⟨c, t, he, hd, _, _⟩ := natDigits_head (n + 1) n [] (by omega)
    have hm : c ≠ '-' := by
      rintro rfl
      exact absurd hd (by decide)
    rw [← parseUnsigned_natDigits false n tl h, encodeInt_ofNat, he]
    simp only [parseNumber, List.cons_append]
    split
    · rename_i heq
      simp at heq
      exact absurd heq.1 hm
    · rfl
  | negSucc n =>
    refine ⟨true, n + 1, ?_, ?_⟩
    · rw [← parseUnsigned_natDigits true (n + 1) tl h, encodeInt_negSucc]
      rfl
    · simp [Int.negSucc_eq]

theorem noDigitAhead_e (t : List Char) : noDigitAhead ('e' :: t) := by
  show ¬ isDigitChar 'e'
  decide

theorem parseNumber_render (m e : Int) (rest : List Char) (h : numberEnds rest) :
    parseNumber ((Json.num m e).render ++ rest) = some (Json.num m e, rest) := by
  simp only [Json.render]
  by_cases he : e = 0
  · subst he
    rw [if_pos rfl]
    obtain ⟨neg, v, hp, hv⟩ := parseNumber_encodeInt m rest (numberEnds_noDigit rest h)
    rw [hp, parseFracExp_stop neg v rest h, hv]
  · rw [if_neg he, List.append_assoc, List.cons_append]
    obtain ⟨neg, v, hp, hv⟩ := parseNumber_encodeInt m ('e' :: (encodeInt e ++ rest))
      (noDigitAhead_e _)
    rw [hp, parseFracExp_exp neg v e rest h, hv]

theorem encodeInt_head (m : Int) : ∃ c t, encodeInt m = c :: t ∧ (isDigitChar c ∨ c = '-') := by
  cases m with
  | ofNat n =>
    obtain ⟨c, t, he, hd, _, _⟩ := natDigits_head (n + 1) n [] (by omega)
    exact ⟨c, t, he, Or.inl hd⟩
  | negSucc n => exact ⟨'-', _, rfl, Or.inr rfl⟩

theorem hex4_low (n : Nat) (h : n < 64) :
    hex4 '0' '0' (hexDigit (n / 16)) (hexDigit (n % 16)) = some n := by
  interval_cases n <;> rfl

theorem parseStringBody_quote (f : Nat) (rest acc : List Char) :
    parseStringBody (f + 1) ('"' :: rest) acc = some (acc.reverse, rest) := by
  simp [parseStringBody]

theorem parseStringBody_escapeChar (c : Char) (f : Nat) (tl acc : List Char) :
    parseStringBody (f + 1) (escapeChar c ++ tl) acc = parseStringBody f tl (c :: acc) := by
  by_cases h1 : c = '"'
  · subst h1
    simp [escapeChar, parseStringBody, unescapeSimple]
  by_cases h2 : c = '\\'
  · subst h2
    simp [escapeChar, parseStringBody, unescapeSimple]
  by_cases h3 : c = '\n'
  · subst h3
    simp [escapeChar, parseStringBody, unescapeSimple]
  by_cases h4 : c = '\r'
  · subst h4
    simp [escapeChar, parseStringBody, unescapeSimple]
  by_cases h5 : c = '\t'
  · subst h5
    simp [escapeChar, parseStringBody, unescapeSimple]
  by_cases h6 : c.toNat < 32 ∨ c = '<' ∨ c = '>' ∨ c = '&'
  · have hn : c.toNat < 64 := by
      rcases h6 with h | h | h | h
      · omega
      · subst h; decide
      · subst h; decide
      · subst h; decide
    have hx := hex4_low c.toNat hn
    have g1 : ¬ (0xD800 ≤ c.toNat ∧ c.toNat < 0xDC00) := by omega
    have g2 : ¬ (0xDC00 ≤ c.toNat ∧ c.toNat < 0xE000) := by omega
    simp only [escapeChar, if_neg h1, if_neg h2, if_neg h3, if_neg h4, if_neg h5, if_pos h6]
    simp [parseStringBody, hx, g1, g2, Char.ofNat_toNat]
  by_cases h7 : c.toNat = 0x2028
  · have hc : c = Char.ofNat 0x2028 := by rw [← h7, Char.ofNat_toNat]
    subst hc
    simp [escapeChar, parseStringBody, hex4, hexVal]
  by_cases h8 : c.toNat = 0x2029
  · have hc : c = Char.ofNat 0x2029 := by rw [← h8, Char.ofNat_toNat]
    subst hc
    simp [escapeChar, parseStringBody, hex4, hexVal]
  have h9 : ¬ c.toNat < 32 := fun h => h6 (Or.inl h)
  simp only [escapeChar, if_neg h1, if_neg h2, if_neg h3, if_neg h4, if_neg h5, if_neg h6,
    if_neg h7, if_neg h8]
  simp [parseStringBody, h1, h2, h9]

theorem parseStringBody_escaped (s : List Char) (f : Nat) (rest acc : List Char)
    (hf : s.length < f) :
    parseStringBody f (s.flatMap escapeChar ++ '"' :: rest) acc = some (acc.reverse ++ s, rest) := by
  induction s generalizing f acc with
  | nil =>
    obtain ⟨g, rfl⟩ : ∃ g, f = g + 1 := ⟨f - 1, by simp at hf; omega⟩
    simp [parseStringBody_quote]
  | cons c t ih =>
    obtain ⟨g, rfl⟩ : ∃ g, f = g + 1 := ⟨f - 1, by simp at hf; omega⟩
    rw [List.flatMap_cons, List.append_assoc, parseStringBody_escapeChar, ih]
    · simp
    · simp at hf
      omega

theorem length_le_flatMap_escapeChar (s : List Char) : s.length ≤ (s.flatMap escapeChar).length := by
  induction s with
  | nil => simp
  | cons c t ih =>
    have h : 1 ≤ (escapeChar c).length := by
      unfold escapeChar
      repeat' split
      all_goals simp
    simp only [List.flatMap_cons, List.length_append, List.length_cons]
    omega

theorem parseString_escaped (s : List Char) (rest : List Char) :
    parseString (s.flatMap escapeChar ++ '"' :: rest) = some (s, rest) := by
  unfold parseString
  rw [parseStringBody_escaped]
  · simp
  · have := length_le_flatMap_escapeChar s
    simp only [List.length_append, List.length_cons]
    omega

theorem valueStart_not_ws (c : Char) (h : valueStart c) : isWs c = false ∧ c ≠ ']' := by
  have hd : ∀ d : Char, isDigitChar d → isWs d = false ∧ d ≠ ']' := by
    intro d hd
    have h1 : 48 ≤ d.toNat := hd.1
    constructor
    · simp only [isWs, Bool.or_eq_false_iff, decide_eq_false_iff_not]
      refine ⟨⟨⟨?_, ?_⟩, ?_⟩, ?_⟩ <;> (rintro rfl; exact absurd h1 (by decide))
    · rintro rfl
      exact absurd hd (by decide)
  rcases h with h | h | h | h | h | h | h | h
  · exact hd c h
  all_goals (subst h; decide)

theorem render_head (j : Json) : ∃ c t, j.render = c :: t ∧ valueStart c := by
  cases j with
  | null => exact ⟨'n', _, rfl, by decide⟩
  | bool b => cases b
              · exact ⟨'f', _, rfl, by decide⟩
              · exact ⟨'t', _, rfl, by decide⟩
  | num m e =>
    obtain ⟨c, t, he, hc⟩ := encodeInt_head m
    simp only [Json.render]
    split
    · exact ⟨c, t, he, by rcases hc with h | h; exact Or.inl h; exact Or.inr (Or.inl h)⟩
    · refine ⟨c, t ++ 'e' :: encodeInt e, by rw [he]; rfl, ?_⟩
      rcases hc with h | h
      · exact Or.inl h
      · exact Or.inr (Or.inl h)
  | str s => exact ⟨'"', _, rfl, by decide⟩
  | arr xs => exact ⟨'[', Json.renderElems xs ++ [']'], by simp [Json.render], by decide⟩
  | obj kvs => exact ⟨'{', Json.renderFields kvs ++ ['}'], by simp [Json.render], by decide⟩

theorem skipWs_of_start (c : Char) (t : List Char) (h : isWs c = false) :
    skipWs (c :: t) = c :: t := by
  simp [skipWs, h]

theorem parseValue_number (f : Nat) (c : Char) (t : List Char) (h : isDigitChar c ∨ c = '-') :
    parseValue (f + 1) (c :: t) = parseNumber (c :: t) := by
  have hs := (valueStart_not_ws c (by rcases h with h | h; exact Or.inl h; exact Or.inr (Or.inl h))).1
  have hno : ∀ d : Char, d ∈ ['{', '[', '"', 'f', 't', 'n'] → c ≠ d := by
    intro d hd hcd
    subst hcd
    simp only [List.mem_cons, List.mem_singleton, List.not_mem_nil, or_false] at hd
    rcases hd with rfl | rfl | rfl | rfl | rfl | rfl <;> exact absurd h (by decide)
  have n1 := hno 'n' (by simp)
  have n2 := hno 't' (by simp)
  have n3 := hno 'f' (by simp)
  have n4 := hno '"' (by simp)
  have n5 := hno '[' (by simp)
  have n6 := hno '{' (by simp)
  unfold parseValue
  rw [skipWs_of_start c t hs]
  split <;> rename_i heq <;> first
    | (simp at heq; first
        | exact absurd heq.1 n1
        | exact absurd heq.1 n2
        | exact absurd heq.1 n3
        | exact absurd heq.1 n4
        | exact absurd heq.1 n5
        | exact absurd heq.1 n6)
    | rfl

theorem parseValue_open_bracket (f : Nat) (c : Char) (t : List Char) (h : valueStart c)
    (xs : List Json) (r2 : List Char) (he : parseElems f (c :: t) = some (xs, r2)) :
    parseValue (f + 1) ('[' :: c :: t) = some (Json.arr xs, r2) := by
  obtain ⟨hw, hb⟩ := valueStart_not_ws c h
  have hs : skipWs (c :: t) = c :: t := skipWs_of_start c t hw
  rw [parseValue]
  simp only [skipWs, isWs]
  simp
  rw [← hs] at he
  split
  · rename_i heq
    rw [hs] at heq
    simp at heq
    exact absurd heq.1 hb
  · rw [he]

theorem parseValue_open_brace (f : Nat) (t : List Char) (kvs : List (String × Json))
    (r2 : List Char) (he : parseMembers f ('"' :: t) = some (kvs, r2)) :
    parseValue (f + 1) ('{' :: '"' :: t) = some (Json.obj kvs, r2) := by
  rw [parseValue]
  simp [skipWs, isWs, he]

theorem parseElems_last (f : Nat) (cs : List Char) (v : Json) (r2 : List Char)
    (hv : parseValue f cs = some (v, ']' :: r2)) :
    parseElems (f + 1) cs = some ([v], r2) := by
  rw [parseElems]
  simp [hv, skipWs, isWs]

theorem parseElems_more (f : Nat) (cs : List Char) (v : Json) (r2 : List Char)
    (vs : List Json) (r3 : List Char)
    (hv : parseValue f cs = some (v, ',' :: r2)) (hs : parseElems f r2 = some (vs, r3)) :
    parseElems (f + 1) cs = some (v :: vs, r3) := by
  rw [parseElems]
  simp [hv, hs, skipWs, isWs]

theorem parseMembers_last (f : Nat) (k tl : List Char) (v : Json) (r3 : List Char)
    (hv : parseValue f tl = some (v, '}' :: r3)) :
    parseMembers (f + 1) (encodeString k ++ ':' :: tl) = some ([(String.mk k, v)], r3) := by
  rw [parseMembers]
  simp only [encodeString, List.cons_append, List.append_assoc, List.nil_append]
  simp [skipWs, isWs, parseString_escaped, hv]

theorem parseMembers_more (f : Nat) (k tl : List Char) (v : Json) (r3 : List Char)
    (kvs : List (String × Json)) (r4 : List Char)
    (hv : parseValue f tl = some (v, ',' :: r3)) (hs : parseMembers f r3 = some (kvs, r4)) :
    parseMembers (f + 1) (encodeString k ++ ':' :: tl) = some ((String.mk k, v) :: kvs, r4) := by
  rw [parseMembers]
  simp only [encodeString, List.cons_append, List.append_assoc, List.nil_append]
  simp [skipWs, isWs, parseString_escaped, hv, hs]

theorem numberEnds_comma (t : List Char) : numberEnds (',' :: t) := by
  show ¬ isDigitChar ',' ∧ _
  decide

theorem numberEnds_bracket (t : List Char) : numberEnds (']' :: t) := by
  show ¬ isDigitChar ']' ∧ _
  decide

theorem numberEnds_brace (t : List Char) : numberEnds ('}' :: t) := by
  show ¬ isDigitChar '}' ∧ _
  decide

theorem renderElems_cons_cons (x y : Json) (ys : List Json) :
    Json.renderElems (x :: y :: ys) = x.render ++ ',' :: Json.renderElems (y :: ys) := by
  rw [Json.renderElems]

theorem renderFields_cons_cons (k : String) (v : Json) (kv : String × Json)
    (rest : List (String × Json)) :
    Json.renderFields ((k, v) :: kv :: rest) =
      encodeString k.data ++ ':' :: (v.render ++ ',' :: Json.renderFields (kv :: rest)) := by
  rw [Json.renderFields]

theorem renderFields_head (k : String) (v : Json) (kvs : List (String × Json)) :
    ∃ t, Json.renderFields ((k, v) :: kvs) = '"' :: t := by
  cases kvs with
  | nil => exact ⟨_, by rw [Json.renderFields]; rfl⟩
  | cons kv rest => exact ⟨_, by rw [renderFields_cons_cons]; rfl⟩

theorem renderElems_head (x : Json) (xs : List Json) :
    ∃ c t, Json.renderElems (x :: xs) = c :: t ∧ valueStart c := by
  obtain ⟨c, t, he, hc⟩ := render_head x
  cases xs with
  | nil => exact ⟨c, t, by rw [Json.renderElems, he], hc⟩
  | cons y ys => exact ⟨c, _, by rw [renderElems_cons_cons, he]; rfl, hc⟩

mutual
theorem parseValue_render : ∀ (j : Json) (f : Nat) (rest : List Char), numberEnds rest →
    2 * j.render.length ≤ f → parseValue f (j.render ++ rest) = some (j, rest)
  | .null, f, rest, _, hf => by
    obtain ⟨g, rfl⟩ : ∃ g, f = g + 1 := ⟨f - 1, by simp [Json.render] at hf; omega⟩
    simp [Json.render, parseValue, skipWs, isWs]
  | .bool b, f, rest, _, hf => by
    obtain ⟨g, rfl⟩ : ∃ g, f = g + 1 := ⟨f - 1, by cases b <;> simp [Json.render] at hf <;> omega⟩
    cases b <;> simp [Json.render, parseValue, skipWs, isWs]
  | .num m e, f, rest, hr, hf => by
    obtain ⟨c, t, he, hc⟩ := render_head (Json.num m e)
    have hlen : 0 < (Json.num m e).render.length := by rw [he]; simp
    obtain ⟨g, rfl⟩ : ∃ g, f = g + 1 := ⟨f - 1, by omega⟩
    have hc2 : isDigitChar c ∨ c = '-' := by
      obtain ⟨c2, t2, he2, hc2⟩ := encodeInt_head m
      have : c = c2 := by
        simp only [Json.render] at he
        split at he <;> (rw [he2] at he; simp at he; exact he.1.symm)
      rw [this]
      exact hc2
    have hp := parseNumber_render m e rest hr
    rw [he] at hp ⊢
    rw [List.cons_append] at hp ⊢
    rw [parseValue_number g c _ hc2, hp]
  | .str s, f, rest, _, hf => by
    obtain ⟨g, rfl⟩ : ∃ g, f = g + 1 := ⟨f - 1, by simp [Json.render, encodeString] at hf; omega⟩
    rw [parseValue]
    simp only [Json.render, encodeString, List.cons_append, List.append_assoc, List.nil_append]
    simp [skipWs, isWs, parseString_escaped]
  | .arr [], f, rest, _, hf => by
    obtain ⟨g, rfl⟩ : ∃ g, f = g + 1 := ⟨f - 1, by simp [Json.render] at hf; omega⟩
    simp [Json.render, Json.renderElems, parseValue, skipWs, isWs]
  | .arr (x :: xs), f, rest, _, hf => by
    obtain ⟨c, t, he, hc⟩ := renderElems_head x xs
    have hr : (Json.arr (x :: xs)).render = '[' :: (Json.renderElems (x :: xs) ++ [']']) := by
      rw [Json.render]
    rw [hr] at hf ⊢
    simp only [List.length_cons, List.length_append, List.length_nil] at hf
    obtain ⟨g, rfl⟩ : ∃ g, f = g + 1 := ⟨f - 1, by omega⟩
    have key := parseElems_render x xs g rest (by omega)
    rw [he] at key
    simp only [List.cons_append, List.append_assoc, List.nil_append]
    rw [he]
    exact parseValue_open_bracket g c _ hc _ _ key
  | .obj [], f, rest, _, hf => by
    obtain ⟨g, rfl⟩ : ∃ g, f = g + 1 := ⟨f - 1, by simp [Json.render] at hf; omega⟩
    simp [Json.render, Json.renderFields, parseValue, skipWs, isWs]
  | .obj ((k, v) :: kvs), f, rest, _, hf => by
    obtain ⟨t, he⟩ := renderFields_head k v kvs
    have hr : (Json.obj ((k, v) :: kvs)).render =
        '{' :: (Json.renderFields ((k, v) :: kvs) ++ ['}']) := by
      rw [Json.render]
    rw [hr] at hf ⊢
    simp only [List.length_cons, List.length_append, List.length_nil] at hf
    obtain ⟨g, rfl⟩ : ∃ g, f = g + 1 := ⟨f - 1, by omega⟩
    have key := parseMembers_render k v kvs g rest (by omega)
    rw [he] at key
    simp only [List.cons_append, List.append_assoc, List.nil_append]
    rw [he]
    exact parseValue_open_brace g _ _ _ key
termination_by j => sizeOf j
theorem parseElems_render : ∀ (x : Json) (xs : List Json) (f : Nat) (rest : List Char),
    2 * (Json.renderElems (x :: xs)).length + 1 ≤ f →
    parseElems f (Json.renderElems (x :: xs) ++ ']' :: rest) = some (x :: xs, rest)
  | x, [], f, rest, hf => by
    obtain ⟨g, rfl⟩ : ∃ g, f = g + 1 := ⟨f - 1, by omega⟩
    have hx := parseValue_render x g (']' :: rest) (numberEnds_bracket rest)
      (by rw [Json.renderElems] at hf; omega)
    rw [Json.renderElems]
    exact parseElems_last g _ x rest hx
  | x, y :: ys, f, rest, hf => by
    obtain ⟨g, rfl⟩ : ∃ g, f = g + 1 := ⟨f - 1, by omega⟩
    rw [renderElems_cons_cons] at hf ⊢
    simp only [List.length_cons, List.length_append] at hf
    have hx := parseValue_render x g (',' :: (Json.renderElems (y :: ys) ++ ']' :: rest))
      (numberEnds_comma _) (by omega)
    have hs := parseElems_render y ys g rest (by omega)
    rw [List.append_assoc, List.cons_append]
    exact parseElems_more g _ x _ (y :: ys) rest hx hs
termination_by x xs => sizeOf x + sizeOf xs
theorem parseMembers_render : ∀ (k : String) (v : Json) (kvs : List (String × Json)) (f : Nat)
    (rest : List Char), 2 * (Json.renderFields ((k, v) :: kvs)).length + 1 ≤ f →
    parseMembers f (Json.renderFields ((k, v) :: kvs) ++ '}' :: rest) =
      some ((k, v) :: kvs, rest)
  | k, v, [], f, rest, hf => by
    obtain ⟨g, rfl⟩ : ∃ g, f = g + 1 := ⟨f - 1, by omega⟩
    rw [Json.renderFields] at hf ⊢
    simp only [List.length_cons, List.length_append] at hf
    have hv := parseValue_render v g ('}' :: rest) (numberEnds_brace rest) (by omega)
    rw [List.append_assoc, List.cons_append]
    exact parseMembers_last g k.data _ v rest hv
  | k, v, (k2, v2) :: kvs, f, rest, hf => by
    obtain ⟨g, rfl⟩ : ∃ g, f = g + 1 := ⟨f - 1, by omega⟩
    rw [renderFields_cons_cons] at hf ⊢
    simp only [List.length_cons, List.length_append] at hf
    have hv := parseValue_render v g (',' :: (Json.renderFields ((k2, v2) :: kvs) ++ '}' :: rest))
      (numberEnds_comma _) (by omega)
    have hs := parseMembers_render k2 v2 kvs g rest (by omega)
    rw [List.append_assoc, List.cons_append, List.append_assoc, List.cons_append]
    exact parseMembers_more g k.data _ v _ ((k2, v2) :: kvs) rest hv hs
termination_by _ v kvs => sizeOf v + sizeOf kvs
end

theorem numberEnds_newline : numberEnds ['\n'] := by
  show ¬ isDigitChar '\n' ∧ _
  decide

/-- Decoding the text `Encode` writes for a value gives the value back. -/
theorem parseJson_encoded (j : Json) : parseJson (String.mk j.render ++ "\n") = some j := by
  have hdata : (String.mk j.render ++ "\n").data = j.render ++ ['\n'] := by
    rw [String.data_append]
  unfold parseJson
  rw [hdata, parseValue_render j _ ['\n'] numberEnds_newline
    (by simp only [List.length_append]; omega)]
  simp [skipWs, isWs]

/-! ## Helper lemmas: the handlers -/

theorem anyCheckedFailed_append (xs ys : List StoreStep) :
    anyCheckedFailed (xs ++ ys) ↔ anyCheckedFailed xs ∨ anyCheckedFailed ys := by
  unfold anyCheckedFailed
  constructor
  · rintro ⟨st, hmem, h⟩
    rcases List.mem_append.mp hmem with hm | hm
    · exact Or.inl ⟨st, hm, h⟩
    · exact Or.inr ⟨st, hm, h⟩
  · rintro (⟨st, hm, h⟩ | ⟨st, hm, h⟩)
    · exact ⟨st, List.mem_append.mpr (Or.inl hm), h⟩
    · exact ⟨st, List.mem_append.mpr (Or.inr hm), h⟩

theorem empty_append_string (b : String) : "" ++ b = b := by
  apply String.ext
  simp

/-- Status and body after the error reply on a writer whose status line is not
yet written. -/
theorem error_reply (w : ResponseWriter) (hs : w.status = none) (hb : w.body = "") (b : String) :
    ((w.WriteHeader StatusInternalServerError).Write b).status = some 500 ∧
    ((w.WriteHeader StatusInternalServerError).Write b).body = b := by
  simp [ResponseWriter.WriteHeader, ResponseWriter.Write, hs, hb, StatusInternalServerError,
    empty_append_string]

/-- Status, body and sent header after a first `Write`. -/
theorem first_write (w : ResponseWriter) (hs : w.status = none) (hb : w.body = "") (b : String) :
    (w.Write b).status = some 200 ∧ (w.Write b).body = b ∧ (w.Write b).sentHeader = w.header := by
  simp [ResponseWriter.WriteHeader, ResponseWriter.Write, hs, hb, StatusOK, empty_append_string]

theorem scanLoop_ok_some (rows : List (Int × String × String)) (xs : List mssqlCity)
    (steps : List StoreStep) :
    scanLoop (rows.map Except.ok) (some xs) steps =
      (.ok (some (xs ++ scannedCities rows)),
        steps ++ List.replicate rows.length ⟨StoreCall.RowsScan, none⟩) := by
  induction rows generalizing xs steps with
  | nil => simp [scanLoop, scannedCities]
  | cons r rest ih =>
    obtain ⟨id, name, country⟩ := r
    simp only [List.map_cons, scanLoop, Slice.append]
    rw [ih]
    simp [scannedCities, List.replicate_succ]

theorem scanLoop_ok_nil (rows : List (Int × String × String)) (hne : rows ≠ [])
    (steps : List StoreStep) :
    scanLoop (rows.map Except.ok) none steps =
      (.ok (some (scannedCities rows)),
        steps ++ List.replicate rows.length ⟨StoreCall.RowsScan, none⟩) := by
  cases rows with
  | nil => exact absurd rfl hne
  | cons r rest =>
    obtain ⟨id, name, country⟩ := r
    simp only [List.map_cons, scanLoop, Slice.append]
    rw [scanLoop_ok_some]
    simp [scannedCities, List.replicate_succ]

theorem scanLoop_error (pre : List (Int × String × String)) (e : String) (post : List ScanResult)
    (cities : Slice mssqlCity) (steps : List StoreStep) :
    scanLoop (pre.map Except.ok ++ Except.error e :: post) cities steps =
      (.error e, steps ++ List.replicate pre.length ⟨StoreCall.RowsScan, none⟩
        ++ [⟨StoreCall.RowsScan, some e⟩]) := by
  induction pre generalizing cities steps with
  | nil => simp [scanLoop]
  | cons r rest ih =>
    obtain ⟨id, name, country⟩ := r
    simp only [List.map_cons, List.cons_append, scanLoop]
    show scanLoop (List.map Except.ok rest ++ Except.error e :: post) _ _ = _
    rw [ih]
    simp [List.replicate_succ]

/-- A scan loop adds a failed checked step exactly when it stops on an error. -/
theorem scanLoop_anyCheckedFailed (rows : List ScanResult) (cities : Slice mssqlCity)
    (steps : List StoreStep) :
    anyCheckedFailed (scanLoop rows cities steps).2 ↔
      anyCheckedFailed steps ∨ ∃ e, (scanLoop rows cities steps).1 = .error e := by
  induction rows generalizing cities steps with
  | nil => simp [scanLoop]
  | cons r rest ih =>
    cases r with
    | error e =>
      simp only [scanLoop, anyCheckedFailed_append]
      constructor
      · intro _
        exact Or.inr ⟨e, rfl⟩
      · intro _
        exact Or.inr ⟨⟨StoreCall.RowsScan, some e⟩, by simp, rfl, by simp⟩
    | ok v =>
      obtain ⟨id, name, country⟩ := v
      simp only [scanLoop]
      rw [ih, anyCheckedFailed_append]
      have : ¬ anyCheckedFailed [⟨StoreCall.RowsScan, none⟩] := by
        rintro ⟨st, hm, _, he⟩
        simp at hm
        subst hm
        exact he rfl
      tauto

/-- The decode loop never adds a failed checked step. -/
theorem decodeLoop_anyCheckedFailed (docs : List (mongoCity × Option String))
    (cities : Slice mongoCity) (steps : List StoreStep) :
    anyCheckedFailed (decodeLoop docs cities steps).2 ↔ anyCheckedFailed steps := by
  induction docs generalizing cities steps with
  | nil => simp [decodeLoop]
  | cons d rest ih =>
    obtain ⟨city, derr⟩ := d
    simp only [decodeLoop]
    rw [ih, anyCheckedFailed_append]
    have : ¬ anyCheckedFailed [⟨StoreCall.Decode, derr⟩] := by
      rintro ⟨st, hm, hc, _⟩
      simp at hm
      subst hm
      simp [StoreCall.checked] at hc
    tauto

theorem statusContract_of_500 (o : Outcome) (h1 : o.status = some 500)
    (h2 : anyCheckedFailed o.steps) : statusContract o := by
  refine ⟨⟨fun _ => h2, fun _ => h1⟩, ⟨?_, fun h => absurd h2 h⟩, Or.inr h1⟩
  intro h
  rw [h1] at h
  exact absurd h (by decide)

theorem statusContract_of_200 (o : Outcome) (h1 : o.status = some 200)
    (h2 : ¬ anyCheckedFailed o.steps) : statusContract o := by
  refine ⟨⟨?_, fun h => absurd h h2⟩, ⟨fun _ => h2, fun _ => h1⟩, Or.inl h1⟩
  intro h
  rw [h1] at h
  exact absurd h (by decide)

theorem not_anyCheckedFailed_of_all_none (steps : List StoreStep)
    (h : ∀ st ∈ steps, st.err = none) : ¬ anyCheckedFailed steps := by
  rintro ⟨st, hm, _, he⟩
  exact he (h st hm)

theorem getCitiesMongo_statusContract (client : Client) (request : Request) :
    statusContract (getCitiesMongo (some client) ResponseWriter.fresh request) := by
  have hw := fun b => error_reply (ResponseWriter.fresh.HeaderSet "content-type" "application/json")
    rfl rfl b
  have hok := fun b => first_write (ResponseWriter.fresh.HeaderSet "content-type" "application/json")
    rfl rfl b
  cases hf : client.Find "CitiesService" "cities" with
  | error e =>
    simp only [getCitiesMongo, hf]
    apply statusContract_of_500
    · exact (hw _).1
    · simp [anyCheckedFailed, StoreCall.checked]
  | ok cursor =>
    have hd := decodeLoop_anyCheckedFailed cursor.docs none
      [⟨StoreCall.Find "CitiesService" "cities", none⟩]
    have h0 : ¬ anyCheckedFailed [(⟨StoreCall.Find "CitiesService" "cities", none⟩ : StoreStep)] :=
      not_anyCheckedFailed_of_all_none _ (by simp)
    rcases hdl : decodeLoop cursor.docs none [⟨StoreCall.Find "CitiesService" "cities", none⟩]
      with ⟨cities, steps⟩
    rw [hdl] at hd
    simp only at hd
    cases he : cursor.err with
    | some e =>
      simp only [getCitiesMongo, hf, hdl, he]
      apply statusContract_of_500
      · exact (hw _).1
      · exact ⟨⟨StoreCall.CursorErr, some e⟩, by simp, rfl, by simp⟩
    | none =>
      simp only [getCitiesMongo, hf, hdl, he]
      apply statusContract_of_200
      · exact (hok _).1
      · show ¬ anyCheckedFailed (steps ++ [⟨StoreCall.CursorErr, none⟩])
        rw [anyCheckedFailed_append]
        rintro (h | h)
        · exact h0 (hd.mp h)
        · exact not_anyCheckedFailed_of_all_none _ (by simp) h

theorem createCitiesMssql_statusContract {σ : Type} (db : DB σ) (request : Request) (s : σ) :
    statusContract (createCitiesMssql (some db) ResponseWriter.fresh request s).1 := by
  have hw := fun b => error_reply ResponseWriter.fresh rfl rfl b
  have hok := fun b => first_write ResponseWriter.fresh rfl rfl b
  rcases hp : db.PingContext s with ⟨_ | e, s1⟩
  · rcases hq : db.Prepare
      "INSERT INTO Cities (Name, Country) VALUES (@Name, @Country); select convert(bigint, SCOPE_IDENTITY());"
      s1 with ⟨_ | e, s2⟩
    · rcases hr : db.QueryRowContext
        "INSERT INTO Cities (Name, Country) VALUES (@Name, @Country); select convert(bigint, SCOPE_IDENTITY());"
        [NamedArg.mk "Name" "Warsaw", NamedArg.mk "Country" "Poland"] s2 with ⟨e | newID, s3⟩
      · simp only [createCitiesMssql, hp, hq, hr]
        apply statusContract_of_500
        · exact (hw _).1
        · simp [anyCheckedFailed, StoreCall.checked]
      · simp only [createCitiesMssql, hp, hq, hr]
        apply statusContract_of_200
        · exact (hok _).1
        · exact not_anyCheckedFailed_of_all_none _ (by simp)
    · simp only [createCitiesMssql, hp, hq]
      apply statusContract_of_500
      · exact (hw _).1
      · simp [anyCheckedFailed, StoreCall.checked]
  · simp only [createCitiesMssql, hp]
    apply statusContract_of_500
    · exact (hw _).1
    · simp [anyCheckedFailed, StoreCall.checked]

theorem getCitiesMssql_statusContract {σ : Type} (db : DB σ) (request : Request) (s : σ) :
    statusContract (getCitiesMssql (some db) ResponseWriter.fresh request s).1 := by
  have hw := fun b => error_reply (ResponseWriter.fresh.HeaderSet "content-type" "application/json")
    rfl rfl b
  have hok := fun b => first_write (ResponseWriter.fresh.HeaderSet "content-type" "application/json")
    rfl rfl b
  rcases hp : db.PingContext s with ⟨_ | e, s1⟩
  · rcases hq : db.QueryContext "SELECT Id, Name, Country FROM Cities;" s1 with ⟨e | rows, s2⟩
    · simp only [getCitiesMssql, hp, hq]
      apply statusContract_of_500
      · exact (hw _).1
      · simp [anyCheckedFailed, StoreCall.checked]
    · have hs := scanLoop_anyCheckedFailed rows none [⟨StoreCall.PingContext, none⟩,
        ⟨StoreCall.QueryContext "SELECT Id, Name, Country FROM Cities;", none⟩]
      have h0 : ¬ anyCheckedFailed [(⟨StoreCall.PingContext, none⟩ : StoreStep),
          ⟨StoreCall.QueryContext "SELECT Id, Name, Country FROM Cities;", none⟩] :=
        not_anyCheckedFailed_of_all_none _ (by simp)
      rcases hsl : scanLoop rows none [⟨StoreCall.PingContext, none⟩,
        ⟨StoreCall.QueryContext "SELECT Id, Name, Country FROM Cities;", none⟩]
        with ⟨e | cities, steps⟩
      · simp only [getCitiesMssql, hp, hq, hsl]
        apply statusContract_of_500
        · exact (hw _).1
        · rw [hsl] at hs
          exact hs.mpr (Or.inr ⟨e, rfl⟩)
      · simp only [getCitiesMssql, hp, hq, hsl]
        apply statusContract_of_200
        · exact (hok _).1
        · rw [hsl] at hs
          intro h
          rcases hs.mp h with h | ⟨e, he⟩
          · exact h0 h
          · exact absurd he (by simp)
  · simp only [getCitiesMssql, hp]
    apply statusContract_of_500
    · exact (hw _).1
    · simp [anyCheckedFailed, StoreCall.checked]

theorem map_marshal_scannedCities (rows : List (Int × String × String)) :
    (scannedCities rows).map marshalMssqlCity = rows.map cityObject := by
  simp [scannedCities, marshalMssqlCity, cityObject, marshalInt, Function.comp_def]

theorem decodeLoop_some (docs : List (mongoCity × Option String)) (xs : List mongoCity)
    (steps : List StoreStep) :
    decodeLoop docs (some xs) steps =
      (some (xs ++ docs.map Prod.fst), steps ++ docs.map fun d => ⟨StoreCall.Decode, d.2⟩) := by
  induction docs generalizing xs steps with
  | nil => simp [decodeLoop]
  | cons d rest ih =>
    obtain ⟨city, derr⟩ := d
    simp only [decodeLoop, Slice.append]
    rw [ih]
    simp

theorem decodeLoop_nil_slice (docs : List (mongoCity × Option String)) (hne : docs ≠ [])
    (steps : List StoreStep) :
    decodeLoop docs none steps =
      (some (docs.map Prod.fst), steps ++ docs.map fun d => ⟨StoreCall.Decode, d.2⟩) := by
  cases docs with
  | nil => exact absurd rfl hne
  | cons d rest =>
    obtain ⟨city, derr⟩ := d
    simp only [decodeLoop, Slice.append]
    rw [decodeLoop_some]
    simp

theorem decodeLoop_elems (docs : List (mongoCity × Option String)) (steps : List StoreStep) :
    (decodeLoop docs none steps).1.elems = docs.map Prod.fst := by
  cases docs with
  | nil => simp [decodeLoop, Slice.elems]
  | cons d rest => rw [decodeLoop_nil_slice _ (by simp)]; simp [Slice.elems]

/-- A run of `getCitiesMssql` in which the ping and the query succeed and every
row scans well: status 200 and the encoded slice of the cities. -/
theorem getCitiesMssql_all_rows_scanned {σ : Type} (db : DB σ) (request : Request)
    (s s1 s2 : σ) (rows : List (Int × String × String))
    (hp : db.PingContext s = (none, s1))
    (hq : db.QueryContext "SELECT Id, Name, Country FROM Cities;" s1 =
      (.ok (rows.map Except.ok), s2)) :
    (getCitiesMssql (some db) ResponseWriter.fresh request s).1.status = some 200 ∧
    (getCitiesMssql (some db) ResponseWriter.fresh request s).1.response.body =
      String.mk (if rows.isEmpty then Json.null else Json.arr (rows.map cityObject)).render
        ++ "\n" := by
  cases rows with
  | nil =>
    have hok := first_write (ResponseWriter.fresh.HeaderSet "content-type" "application/json")
      rfl rfl (String.mk Json.null.render ++ "\n")
    simp only [List.map_nil] at hq
    simp only [getCitiesMssql, hp, hq, scanLoop, Outcome.status, Encode, marshalSlice]
    exact ⟨hok.1, hok.2.1⟩
  | cons r rest =>
    have hok := first_write (ResponseWriter.fresh.HeaderSet "content-type" "application/json")
      rfl rfl (String.mk (Json.arr ((r :: rest).map cityObject)).render ++ "\n")
    simp only [getCitiesMssql, hp, hq, scanLoop_ok_nil (r :: rest) (by simp), Outcome.status,
      Encode, marshalSlice, map_marshal_scannedCities]
    exact ⟨hok.1, hok.2.1⟩

theorem citiesTable_select (t : CitiesTable) :
    CitiesTable.db.QueryContext "SELECT Id, Name, Country FROM Cities;" t =
      (.ok ((t.rows.map fun r => (r.ID, r.Name, r.Country)).map Except.ok), t) := by
  rw [List.map_map]
  rfl

theorem citiesTable_insert (t : CitiesTable) :
    CitiesTable.db.QueryRowContext
      "INSERT INTO Cities (Name, Country) VALUES (@Name, @Country); select convert(bigint, SCOPE_IDENTITY());"
      [⟨"Name", "Warsaw"⟩, ⟨"Country", "Poland"⟩] t =
      (.ok t.identity,
        { rows := t.rows ++ [⟨t.identity, "Warsaw", "Poland"⟩], identity := t.identity + 1 }) :=
  rfl

theorem cityObject_of_row (c : mssqlCity) :
    cityObject (c.ID, c.Name, c.Country) = marshalMssqlCity c := rfl

theorem marshalMssqlCity_member_ID (c : mssqlCity) :
    (marshalMssqlCity c).member "ID" = some (Json.num c.ID 0) := by
  simp [marshalMssqlCity, Json.member, marshalInt]

/-- The listing `getCitiesMssql` gives for a table: status 200 and a body that
decodes to `null` for no rows, to the array of the rows otherwise. -/
theorem getCitiesMssql_on_table (t : CitiesTable) (request : Request) :
    (getCitiesMssql (some CitiesTable.db) ResponseWriter.fresh request t).1.status = some 200 ∧
    parseJson (getCitiesMssql (some CitiesTable.db) ResponseWriter.fresh request t).1.response.body =
      some (if t.rows.isEmpty then Json.null else Json.arr (t.rows.map marshalMssqlCity)) := by
  have h := getCitiesMssql_all_rows_scanned CitiesTable.db request t t t
    (t.rows.map fun r => (r.ID, r.Name, r.Country)) rfl (citiesTable_select t)
  refine ⟨h.1, ?_⟩
  rw [h.2, parseJson_encoded]
  cases t.rows with
  | nil => rfl
  | cons r rest => simp [cityObject_of_row, Function.comp_def]

/-- A run of `createCitiesMssql` on a table: status 200, the encoded identity
value, and the table with the new row. -/
theorem createCitiesMssql_on_table (t : CitiesTable) (request : Request) :
    (createCitiesMssql (some CitiesTable.db) ResponseWriter.fresh request t).1.status = some 200 ∧
    (createCitiesMssql (some CitiesTable.db) ResponseWriter.fresh request t).1.response.body =
      String.mk (marshalInt t.identity).render ++ "\n" ∧
    (createCitiesMssql (some CitiesTable.db) ResponseWriter.fresh request t).2 =
      { rows := t.rows ++ [⟨t.identity, "Warsaw", "Poland"⟩], identity := t.identity + 1 } := by
  have hok := first_write ResponseWriter.fresh rfl rfl
    (String.mk (marshalInt t.identity).render ++ "\n")
  have hp : CitiesTable.db.PingContext t = (none, t) := rfl
  have hq : CitiesTable.db.Prepare
    "INSERT INTO Cities (Name, Country) VALUES (@Name, @Country); select convert(bigint, SCOPE_IDENTITY());"
    t = (none, t) := rfl
  simp only [createCitiesMssql, hp, hq, citiesTable_insert, Outcome.status, Encode]
  exact ⟨hok.1, hok.2.1, trivial⟩

/-- The reply of `getCitiesMssql` when the ping fails with `e`, or the query
fails with `e`, or the first failing scan fails with `e`. -/
theorem getCitiesMssql_failure_reply {σ : Type} (db : DB σ) (request : Request)
    (s : σ) (e : String)
    (h : (∃ s1, db.PingContext s = (some e, s1)) ∨
      (∃ s1 s2, db.PingContext s = (none, s1) ∧
        db.QueryContext "SELECT Id, Name, Country FROM Cities;" s1 = (.error e, s2)) ∨
      (∃ s1 s2 pre post, db.PingContext s = (none, s1) ∧
        db.QueryContext "SELECT Id, Name, Country FROM Cities;" s1 =
          (.ok (List.map Except.ok pre ++ Except.error e :: post), s2))) :
    (getCitiesMssql (some db) ResponseWriter.fresh request s).1.status = some 500 ∧
    (getCitiesMssql (some db) ResponseWriter.fresh request s).1.response.body = messageBody e ∧
    ∃ call, (⟨call, some e⟩ : StoreStep) ∈
      (getCitiesMssql (some db) ResponseWriter.fresh request s).1.steps := by
  have hw := error_reply (ResponseWriter.fresh.HeaderSet "content-type" "application/json")
    rfl rfl (messageBody e)
  rcases h with ⟨s1, hp⟩ | ⟨s1, s2, hp, hq⟩ | ⟨s1, s2, pre, post, hp, hq⟩
  · simp only [getCitiesMssql, hp, Outcome.status]
    exact ⟨hw.1, hw.2, StoreCall.PingContext, by simp⟩
  · simp only [getCitiesMssql, hp, hq, Outcome.status]
    exact ⟨hw.1, hw.2, StoreCall.QueryContext "SELECT Id, Name, Country FROM Cities;", by simp⟩
  · simp only [getCitiesMssql, hp, hq, Outcome.status, scanLoop_error]
    exact ⟨hw.1, hw.2, StoreCall.RowsScan, by simp⟩

/-- A row sequence with a failing scan splits at its first failing scan. -/
theorem exists_first_scan_error (rows : List ScanResult)
    (h : ∃ r ∈ rows, ∃ e, r = Except.error e) :
    ∃ pre e post, rows = List.map Except.ok pre ++ Except.error e :: post := by
  induction rows with
  | nil =>
    obtain ⟨r, hr, _⟩ := h
    simp at hr
  | cons r rest ih =>
    cases r with
    | error e => exact ⟨[], e, rest, rfl⟩
    | ok v =>
      have h2 : ∃ r ∈ rest, ∃ e, r = Except.error e := by
        obtain ⟨r, hr, e, he⟩ := h
        rcases List.mem_cons.mp hr with h1 | h1
        · rw [he] at h1
          cases h1
        · exact ⟨r, h1, e, he⟩
      obtain ⟨pre, e, post, hp⟩ := ih h2
      exact ⟨v :: pre, e, post, by rw [hp]; rfl⟩

theorem statusFollows_of_cases (o : Outcome) (storeFails : Prop)
    (h : (o.status = some 500 ∧ storeFails) ∨ (o.status = some 200 ∧ ¬ storeFails)) :
    statusFollows o storeFails := by
  rcases h with ⟨h1, h2⟩ | ⟨h1, h2⟩
  · refine ⟨⟨fun _ => h2, fun _ => h1⟩, ⟨?_, fun h => absurd h2 h⟩, Or.inr h1⟩
    intro h
    rw [h1] at h
    exact absurd h (by decide)
  · refine ⟨⟨?_, fun h => absurd h h2⟩, ⟨fun _ => h2, fun _ => h1⟩, Or.inl h1⟩
    intro h
    rw [h1] at h
    exact absurd h (by decide)

/-- Rows without a failing scan are rows that all scan well. -/
theorem all_rows_scan_of_no_error (rows : List ScanResult)
    (h : ¬ ∃ r ∈ rows, ∃ e, r = Except.error e) :
    ∃ pre : List (Int × String × String), rows = List.map Except.ok pre := by
  induction rows with
  | nil => exact ⟨[], rfl⟩
  | cons r rest ih =>
    cases r with
    | error e => exact absurd ⟨Except.error e, by simp, e, rfl⟩ h
    | ok v =>
      have h2 : ¬ ∃ r ∈ rest, ∃ e, r = Except.error e := by
        rintro ⟨r, hr, e, he⟩
        exact h ⟨r, List.mem_cons_of_mem _ hr, e, he⟩
      obtain ⟨pre, hp⟩ := ih h2
      exact ⟨v :: pre, by rw [hp]; rfl⟩

theorem getCitiesMongo_statusFollows (client : Client) (request : Request) :
    statusFollows (getCitiesMongo (some client) ResponseWriter.fresh request)
      (mongoListFails client) := by
  have hw := fun b => error_reply (ResponseWriter.fresh.HeaderSet "content-type" "application/json")
    rfl rfl b
  have hok := fun b => first_write (ResponseWriter.fresh.HeaderSet "content-type" "application/json")
    rfl rfl b
  apply statusFollows_of_cases
  cases hf : client.Find "CitiesService" "cities" with
  | error e =>
    left
    refine ⟨?_, Or.inl ⟨e, hf⟩⟩
    simp only [getCitiesMongo, hf, Outcome.status]
    exact (hw _).1
  | ok cursor =>
    rcases hdl : decodeLoop cursor.docs none [⟨StoreCall.Find "CitiesService" "cities", none⟩]
      with ⟨cities, steps⟩
    cases he : cursor.err with
    | some e =>
      left
      refine ⟨?_, Or.inr ⟨cursor, e, hf, he⟩⟩
      simp only [getCitiesMongo, hf, hdl, he, Outcome.status]
      exact (hw _).1
    | none =>
      right
      constructor
      · simp only [getCitiesMongo, hf, hdl, he, Outcome.status, Encode]
        exact (hok _).1
      · rintro (⟨e, h⟩ | ⟨c, e, h1, h2⟩)
        · rw [hf] at h
          cases h
        · rw [hf] at h1
          cases h1
          rw [he] at h2
          cases h2

theorem createCitiesMssql_statusFollows {σ : Type} (db : DB σ) (request : Request) (s : σ) :
    statusFollows (createCitiesMssql (some db) ResponseWriter.fresh request s).1
      (mssqlInsertFails db s) := by
  have hw := fun b => error_reply ResponseWriter.fresh rfl rfl b
  have hok := fun b => first_write ResponseWriter.fresh rfl rfl b
  apply statusFollows_of_cases
  rcases hp : db.PingContext s with ⟨_ | e, s1⟩
  · rcases hq : db.Prepare
      "INSERT INTO Cities (Name, Country) VALUES (@Name, @Country); select convert(bigint, SCOPE_IDENTITY());"
      s1 with ⟨_ | e, s2⟩
    · rcases hr : db.QueryRowContext
        "INSERT INTO Cities (Name, Country) VALUES (@Name, @Country); select convert(bigint, SCOPE_IDENTITY());"
        [NamedArg.mk "Name" "Warsaw", NamedArg.mk "Country" "Poland"] s2 with ⟨e | newID, s3⟩
      · left
        refine ⟨?_, Or.inr (Or.inr ⟨e, s1, s2, s3, hp, hq, hr⟩)⟩
        simp only [createCitiesMssql, hp, hq, hr, Outcome.status]
        exact (hw _).1
      · right
        constructor
        · simp only [createCitiesMssql, hp, hq, hr, Outcome.status, Encode]
          exact (hok _).1
        · rintro (⟨e, t1, h⟩ | ⟨e, t1, t2, h1, h2⟩ | ⟨e, t1, t2, t3, h1, h2, h3⟩)
          · rw [hp] at h
            cases h
          · rw [hp] at h1
            cases h1
            rw [hq] at h2
            cases h2
          · rw [hp] at h1
            cases h1
            rw [hq] at h2
            cases h2
            rw [hr] at h3
            cases h3
    · left
      refine ⟨?_, Or.inr (Or.inl ⟨e, s1, s2, hp, hq⟩)⟩
      simp only [createCitiesMssql, hp, hq, Outcome.status]
      exact (hw _).1
  · left
    refine ⟨?_, Or.inl ⟨e, s1, hp⟩⟩
    simp only [createCitiesMssql, hp, Outcome.status]
    exact (hw _).1

theorem getCitiesMssql_statusFollows {σ : Type} (db : DB σ) (request : Request) (s : σ) :
    statusFollows (getCitiesMssql (some db) ResponseWriter.fresh request s).1
      (mssqlListFails db s) := by
  apply statusFollows_of_cases
  by_cases hfail : mssqlListFails db s
  · left
    refine ⟨?_, hfail⟩
    rcases hfail with ⟨e, s1, hp⟩ | ⟨e, s1, s2, hp, hq⟩ | ⟨s1, s2, rows, hp, hq, hr⟩
    · exact (getCitiesMssql_failure_reply db request s e (Or.inl ⟨s1, hp⟩)).1
    · exact (getCitiesMssql_failure_reply db request s e (Or.inr (Or.inl ⟨s1, s2, hp, hq⟩))).1
    · obtain ⟨pre, e, post, hrows⟩ := exists_first_scan_error rows hr
      rw [hrows] at hq
      exact (getCitiesMssql_failure_reply db request s e
        (Or.inr (Or.inr ⟨s1, s2, pre, post, hp, hq⟩))).1
  · right
    refine ⟨?_, hfail⟩
    rcases hp : db.PingContext s with ⟨_ | e, s1⟩
    · rcases hq : db.QueryContext "SELECT Id, Name, Country FROM Cities;" s1 with ⟨e | rows, s2⟩
      · exact absurd (Or.inr (Or.inl ⟨e, s1, s2, hp, hq⟩)) hfail
      · have hno : ¬ ∃ r ∈ rows, ∃ e, r = Except.error e := fun h =>
          hfail (Or.inr (Or.inr ⟨s1, s2, rows, hp, hq, h⟩))
        obtain ⟨pre, hpre⟩ := all_rows_scan_of_no_error rows hno
        rw [hpre] at hq
        exact (getCitiesMssql_all_rows_scanned db request s s1 s2 pre hp hq).1
    · exact absurd (Or.inl ⟨e, s1, hp⟩) hfail

/-! ## Theorems -/

/-- C2: with the clients initialised, whatever the stores answer, each handler
replies 500 exactly when the store answers one of its calls whose error the
handler tests with an error (find or cursor error; ping, prepare or insert
error; ping, query or row-scan error), and 200 exactly when it does not; no
other status is produced. The same holds of the store calls the run records:
500 exactly when one of the tested calls it made returned an error. -/
theorem handlers_status_500_iff_checked_step_failed {σ : Type} (client : Client) (db : DB σ)
    (request : Request) (s : σ) :
    (statusFollows (getCitiesMongo (some client) ResponseWriter.fresh request)
        (mongoListFails client) ∧
      statusFollows (createCitiesMssql (some db) ResponseWriter.fresh request s).1
        (mssqlInsertFails db s) ∧
      statusFollows (getCitiesMssql (some db) ResponseWriter.fresh request s).1
        (mssqlListFails db s)) ∧
    (statusContract (getCitiesMongo (some client) ResponseWriter.fresh request) ∧
      statusContract (createCitiesMssql (some db) ResponseWriter.fresh request s).1 ∧
      statusContract (getCitiesMssql (some db) ResponseWriter.fresh request s).1) :=
  ⟨⟨getCitiesMongo_statusFollows client request,
      createCitiesMssql_statusFollows db request s,
      getCitiesMssql_statusFollows db request s⟩,
    getCitiesMongo_statusContract client request,
    createCitiesMssql_statusContract db request s,
    getCitiesMssql_statusContract db request s⟩

/-- C1: an error text holding a double quote is copied into the body as it is,
so the body is not well-formed JSON; shown for one failing step of each
handler (find, ping, row scan). -/
theorem error_body_with_quote_is_not_json :
    parseJson (getCitiesMongo
      (some (fixedClient (.error "parse \"mongodb://localhost\": invalid host")))
      ResponseWriter.fresh (emptyRequest "GET" "/mongo/cities")).response.body = none ∧
    parseJson (createCitiesMssql
      (some (fixedDB (some "lookup \"localhost\": no such host") (.ok []) none (.ok 1)))
      ResponseWriter.fresh (emptyRequest "POST" "/mssql/cities") ()).1.response.body = none ∧
    parseJson (getCitiesMssql
      (some (fixedDB none
        (.ok [.error "sql: Scan error on column index 0, name \"Id\": converting NULL to int is unsupported"])
        none (.ok 1)))
      ResponseWriter.fresh (emptyRequest "GET" "/mssql/cities") ()).1.response.body = none :=
  ⟨rfl, rfl, rfl⟩

/-- C3: `createCitiesMssql` never sets the content type: on a successful insert
it sends status 200 and the body `1` with no content-type header. -/
theorem createCitiesMssql_success_has_no_content_type :
    (createCitiesMssql (some (fixedDB none (.ok []) none (.ok 1)))
      ResponseWriter.fresh (emptyRequest "POST" "/mssql/cities") ()).1.status = some 200 ∧
    (createCitiesMssql (some (fixedDB none (.ok []) none (.ok 1)))
      ResponseWriter.fresh (emptyRequest "POST" "/mssql/cities") ()).1.response.body = "1\n" ∧
    (createCitiesMssql (some (fixedDB none (.ok []) none (.ok 1)))
      ResponseWriter.fresh (emptyRequest "POST" "/mssql/cities") ()).1.response.sent "content-type"
        = none := by
  refine ⟨rfl, ?_, rfl⟩
  decide

/-- C7 (as stated, refuted): on an empty collection the body of
`getCitiesMongo` decodes to JSON `null`, not to the empty array. -/
theorem getCitiesMongo_empty_is_not_empty_array :
    parseJson (getCitiesMongo (some (fixedClient (.ok ⟨[], none⟩)))
      ResponseWriter.fresh (emptyRequest "GET" "/mongo/cities")).response.body = some Json.null ∧
    parseJson (getCitiesMongo (some (fixedClient (.ok ⟨[], none⟩)))
      ResponseWriter.fresh (emptyRequest "GET" "/mongo/cities")).response.body ≠
        some (Json.arr []) := by
  have h : parseJson (getCitiesMongo (some (fixedClient (.ok ⟨[], none⟩)))
      ResponseWriter.fresh (emptyRequest "GET" "/mongo/cities")).response.body = some Json.null :=
    rfl
  refine ⟨h, ?_⟩
  rw [h]
  intro hc
  cases hc

/-- C7 (amended): when the find succeeds, the cursor yields no document and
reports no error, `getCitiesMongo` answers 200 and its body is the JSON text
`null` followed by a newline. -/
theorem getCitiesMongo_empty_is_null (client : Client) (request : Request)
    (h : client.Find "CitiesService" "cities" = .ok ⟨[], none⟩) :
    (getCitiesMongo (some client) ResponseWriter.fresh request).status = some 200 ∧
    (getCitiesMongo (some client) ResponseWriter.fresh request).response.body = "null\n" ∧
    parseJson (getCitiesMongo (some client) ResponseWriter.fresh request).response.body =
      some Json.null := by
  have hok := first_write (ResponseWriter.fresh.HeaderSet "content-type" "application/json")
    rfl rfl "null\n"
  have hb : (getCitiesMongo (some client) ResponseWriter.fresh request).response.body = "null\n" := by
    simp only [getCitiesMongo, h, decodeLoop, Encode, marshalSlice]
    exact hok.2.1
  refine ⟨?_, hb, ?_⟩
  · simp only [getCitiesMongo, h, decodeLoop, Encode, marshalSlice, Outcome.status]
    exact hok.1
  · rw [hb]
    rfl

/-- C7 (amended, instance): the store with an empty collection. -/
theorem getCitiesMongo_empty_is_null_witness :
    (getCitiesMongo (some (fixedClient (.ok ⟨[], none⟩))) ResponseWriter.fresh
      (emptyRequest "GET" "/mongo/cities")).status = some 200 ∧
    (getCitiesMongo (some (fixedClient (.ok ⟨[], none⟩))) ResponseWriter.fresh
      (emptyRequest "GET" "/mongo/cities")).response.body = "null\n" ∧
    parseJson (getCitiesMongo (some (fixedClient (.ok ⟨[], none⟩))) ResponseWriter.fresh
      (emptyRequest "GET" "/mongo/cities")).response.body = some Json.null :=
  getCitiesMongo_empty_is_null (fixedClient (.ok ⟨[], none⟩)) (emptyRequest "GET" "/mongo/cities") rfl

/-- C4: when the ping and the query succeed and every one of the (one or more)
rows scans well, `getCitiesMssql` answers 200 and its body decodes to the JSON
array with one object per row, in row order, the object of a row holding its
first column as `ID`, its second as `Name` and its third as `Country`. -/
theorem getCitiesMssql_lists_every_row {σ : Type} (db : DB σ) (request : Request)
    (s s1 s2 : σ) (rows : List (Int × String × String)) (hne : rows ≠ [])
    (hp : db.PingContext s = (none, s1))
    (hq : db.QueryContext "SELECT Id, Name, Country FROM Cities;" s1 =
      (.ok (rows.map Except.ok), s2)) :
    (getCitiesMssql (some db) ResponseWriter.fresh request s).1.status = some 200 ∧
    parseJson (getCitiesMssql (some db) ResponseWriter.fresh request s).1.response.body =
      some (Json.arr (rows.map cityObject)) ∧
    (rows.map cityObject).length = rows.length := by
  have h := getCitiesMssql_all_rows_scanned db request s s1 s2 rows hp hq
  have he : rows.isEmpty = false := by
    cases rows with
    | nil => exact absurd rfl hne
    | cons r rest => rfl
  refine ⟨h.1, ?_, by simp⟩
  rw [h.2, parseJson_encoded, he]
  rfl

/-- C4 (instance): two rows. -/
theorem getCitiesMssql_lists_every_row_witness :
    (getCitiesMssql
      (some (fixedDB none (.ok [.ok (1, "Warsaw", "Poland"), .ok (2, "Oslo", "Norway")]) none (.ok 1)))
      ResponseWriter.fresh (emptyRequest "GET" "/mssql/cities") ()).1.status = some 200 ∧
    parseJson (getCitiesMssql
      (some (fixedDB none (.ok [.ok (1, "Warsaw", "Poland"), .ok (2, "Oslo", "Norway")]) none (.ok 1)))
      ResponseWriter.fresh (emptyRequest "GET" "/mssql/cities") ()).1.response.body =
      some (Json.arr ([(1, "Warsaw", "Poland"), (2, "Oslo", "Norway")].map cityObject)) ∧
    ([((1 : Int), "Warsaw", "Poland"), (2, "Oslo", "Norway")].map cityObject).length = 2 :=
  getCitiesMssql_lists_every_row
    (fixedDB none (.ok [.ok (1, "Warsaw", "Poland"), .ok (2, "Oslo", "Norway")]) none (.ok 1))
    (emptyRequest "GET" "/mssql/cities") () () () [(1, "Warsaw", "Poland"), (2, "Oslo", "Norway")]
    (by simp) rfl rfl

/-- C6: `createCitiesMssql` does not look at the request: two requests that
meet the same store give the same run (response, store calls, store state);
whenever the run reaches the insert, the arguments bound are `Name` = Warsaw and
`Country` = Poland; and when the ping, the prepare and the insert succeed, the
response is 200 with a body that decodes to the bare integer the store
returned. -/
theorem createCitiesMssql_fixed_insert_and_bare_id {σ : Type} (db : DB σ)
    (request request2 : Request) (s : σ) :
    createCitiesMssql (some db) ResponseWriter.fresh request s =
      createCitiesMssql (some db) ResponseWriter.fresh request2 s ∧
    (∀ st ∈ (createCitiesMssql (some db) ResponseWriter.fresh request s).1.steps,
      ∀ q args, st.call = StoreCall.QueryRowContext q args →
        args = [⟨"Name", "Warsaw"⟩, ⟨"Country", "Poland"⟩]) ∧
    (∀ s1 s2 s3 newID, db.PingContext s = (none, s1) →
      db.Prepare
        "INSERT INTO Cities (Name, Country) VALUES (@Name, @Country); select convert(bigint, SCOPE_IDENTITY());"
        s1 = (none, s2) →
      db.QueryRowContext
        "INSERT INTO Cities (Name, Country) VALUES (@Name, @Country); select convert(bigint, SCOPE_IDENTITY());"
        [⟨"Name", "Warsaw"⟩, ⟨"Country", "Poland"⟩] s2 = (.ok newID, s3) →
      (createCitiesMssql (some db) ResponseWriter.fresh request s).1.status = some 200 ∧
      (createCitiesMssql (some db) ResponseWriter.fresh request s).1.response.body =
        String.mk (encodeInt newID) ++ "\n" ∧
      parseJson (createCitiesMssql (some db) ResponseWriter.fresh request s).1.response.body =
        some (Json.num newID 0) ∧
      (createCitiesMssql (some db) ResponseWriter.fresh request s).2 = s3) := by
  refine ⟨rfl, ?_, ?_⟩
  · intro st hst q args hcall
    rcases hp : db.PingContext s with ⟨_ | e, s1⟩
    · rcases hq : db.Prepare
        "INSERT INTO Cities (Name, Country) VALUES (@Name, @Country); select convert(bigint, SCOPE_IDENTITY());"
        s1 with ⟨_ | e, s2⟩
      · rcases hr : db.QueryRowContext
          "INSERT INTO Cities (Name, Country) VALUES (@Name, @Country); select convert(bigint, SCOPE_IDENTITY());"
          [NamedArg.mk "Name" "Warsaw", NamedArg.mk "Country" "Poland"] s2 with ⟨e | newID, s3⟩
        · simp only [createCitiesMssql, hp, hq, hr] at hst
          simp at hst
          rcases hst with h | h | h <;> (subst h; simp at hcall)
          exact hcall.2.symm
        · simp only [createCitiesMssql, hp, hq, hr] at hst
          simp at hst
          rcases hst with h | h | h <;> (subst h; simp at hcall)
          exact hcall.2.symm
      · simp only [createCitiesMssql, hp, hq] at hst
        simp at hst
        rcases hst with h | h <;> (subst h; simp at hcall)
    · simp only [createCitiesMssql, hp] at hst
      simp at hst
      subst hst
      simp at hcall
  · intro s1 s2 s3 newID hp hq hr
    have hok := first_write ResponseWriter.fresh rfl rfl (String.mk (encodeInt newID) ++ "\n")
    have hrender : (marshalInt newID).render = encodeInt newID := by
      simp [marshalInt, Json.render]
    simp only [createCitiesMssql, hp, hq, hr, Outcome.status, Encode, hrender]
    refine ⟨hok.1, hok.2.1, ?_, trivial⟩
    rw [hok.2.1, ← hrender]
    exact parseJson_encoded (marshalInt newID)

/-- C6 (instance): two different requests against a store that returns 7. -/
theorem createCitiesMssql_fixed_insert_and_bare_id_witness :
    createCitiesMssql (some (fixedDB none (.ok []) none (.ok 7))) ResponseWriter.fresh
        (emptyRequest "POST" "/mssql/cities") () =
      createCitiesMssql (some (fixedDB none (.ok []) none (.ok 7))) ResponseWriter.fresh
        ⟨"POST", "/mssql/cities?name=Oslo", [("Content-Type", "application/json")],
          "\x7b\"Name\":\"Oslo\",\"Country\":\"Norway\"\x7d"⟩ () ∧
    (createCitiesMssql (some (fixedDB none (.ok []) none (.ok 7))) ResponseWriter.fresh
      (emptyRequest "POST" "/mssql/cities") ()).1.status = some 200 ∧
    (createCitiesMssql (some (fixedDB none (.ok []) none (.ok 7))) ResponseWriter.fresh
      (emptyRequest "POST" "/mssql/cities") ()).1.response.body = String.mk (encodeInt 7) ++ "\n" ∧
    parseJson (createCitiesMssql (some (fixedDB none (.ok []) none (.ok 7))) ResponseWriter.fresh
      (emptyRequest "POST" "/mssql/cities") ()).1.response.body = some (Json.num 7 0) :=
  have h := createCitiesMssql_fixed_insert_and_bare_id (fixedDB none (.ok []) none (.ok 7))
    (emptyRequest "POST" "/mssql/cities")
    ⟨"POST", "/mssql/cities?name=Oslo", [("Content-Type", "application/json")],
      "\x7b\"Name\":\"Oslo\",\"Country\":\"Norway\"\x7d"⟩ ()
  have h3 := h.2.2 () () () 7 rfl rfl rfl
  ⟨h.1, h3.1, h3.2.1, h3.2.2.1⟩

/-- C10: when the find succeeds and the cursor reports no iteration error,
`getCitiesMongo` answers 200 and encodes a slice with exactly one city per
document the cursor yielded, in cursor order, each city being whatever `Decode`
left, whatever errors `Decode` returned: the body decodes to the array of these
cities (to `null` when the cursor yielded nothing). -/
theorem getCitiesMongo_lists_every_document (client : Client) (request : Request)
    (cursor : Cursor) (hf : client.Find "CitiesService" "cities" = .ok cursor)
    (he : cursor.err = none) :
    (getCitiesMongo (some client) ResponseWriter.fresh request).status = some 200 ∧
    (∃ cities : Slice mongoCity, cities.elems = cursor.docs.map Prod.fst ∧
      (getCitiesMongo (some client) ResponseWriter.fresh request).response.body =
        String.mk (marshalSlice marshalMongoCity cities).render ++ "\n") ∧
    parseJson (getCitiesMongo (some client) ResponseWriter.fresh request).response.body =
      some (if cursor.docs.isEmpty then Json.null
        else Json.arr (cursor.docs.map fun d => marshalMongoCity d.1)) := by
  rcases hdl : decodeLoop cursor.docs none [⟨StoreCall.Find "CitiesService" "cities", none⟩]
    with ⟨cities, steps⟩
  have helems := decodeLoop_elems cursor.docs [⟨StoreCall.Find "CitiesService" "cities", none⟩]
  rw [hdl] at helems
  simp only at helems
  have hok := first_write (ResponseWriter.fresh.HeaderSet "content-type" "application/json")
    rfl rfl (String.mk (marshalSlice marshalMongoCity cities).render ++ "\n")
  have hbody : (getCitiesMongo (some client) ResponseWriter.fresh request).response.body =
      String.mk (marshalSlice marshalMongoCity cities).render ++ "\n" := by
    simp only [getCitiesMongo, hf, hdl, he, Encode]
    exact hok.2.1
  refine ⟨?_, ⟨cities, helems, hbody⟩, ?_⟩
  · simp only [getCitiesMongo, hf, hdl, he, Encode, Outcome.status]
    exact hok.1
  · rw [hbody, parseJson_encoded]
    cases hd : cursor.docs with
    | nil =>
      rw [hd] at hdl
      simp only [decodeLoop, Prod.mk.injEq] at hdl
      rw [← hdl.1]
      rfl
    | cons d ds =>
      rw [hd, decodeLoop_nil_slice _ (by simp)] at hdl
      simp only [Prod.mk.injEq] at hdl
      rw [← hdl.1]
      simp [marshalSlice]

/-- C10 (instance): three documents, the second of which fails to decode. -/
theorem getCitiesMongo_lists_every_document_witness :
    (getCitiesMongo (some (fixedClient (.ok ⟨[(⟨NilObjectID, "Warsaw", "Poland"⟩, none),
        (⟨NilObjectID, "", ""⟩, some "cannot decode string into an ObjectID"),
        (⟨NilObjectID, "Oslo", "Norway"⟩, none)], none⟩)))
      ResponseWriter.fresh (emptyRequest "GET" "/mongo/cities")).status = some 200 ∧
    parseJson (getCitiesMongo (some (fixedClient (.ok ⟨[(⟨NilObjectID, "Warsaw", "Poland"⟩, none),
        (⟨NilObjectID, "", ""⟩, some "cannot decode string into an ObjectID"),
        (⟨NilObjectID, "Oslo", "Norway"⟩, none)], none⟩)))
      ResponseWriter.fresh (emptyRequest "GET" "/mongo/cities")).response.body =
      some (Json.arr [marshalMongoCity ⟨NilObjectID, "Warsaw", "Poland"⟩,
        marshalMongoCity ⟨NilObjectID, "", ""⟩, marshalMongoCity ⟨NilObjectID, "Oslo", "Norway"⟩]) :=
  have h := getCitiesMongo_lists_every_document
    (fixedClient (.ok ⟨[(⟨NilObjectID, "Warsaw", "Poland"⟩, none),
      (⟨NilObjectID, "", ""⟩, some "cannot decode string into an ObjectID"),
      (⟨NilObjectID, "Oslo", "Norway"⟩, none)], none⟩))
    (emptyRequest "GET" "/mongo/cities") _ rfl rfl
  ⟨h.1, h.2.2⟩

/-- C9: on the `Cities` table with its identity column, a `createCitiesMssql`
followed at once by a `getCitiesMssql` succeed both; the POST body decodes to
the identity value `id` the table handed out; the listing decodes to the
objects listed before the POST, unchanged and in order, followed by the one
object with `ID` = `id`, `Name` = Warsaw, `Country` = Poland; no object listed
before has that `ID`; the table stays well formed. From the empty table the
listing is the text `[{"ID":1,"Name":"Warsaw","Country":"Poland"}]` and a
newline. -/
theorem post_then_get_lists_the_new_row (t : CitiesTable) (hwf : t.wellFormed)
    (request request2 request3 : Request) :
    parseJson (getCitiesMssql (some CitiesTable.db) ResponseWriter.fresh request t).1.response.body =
      some (if t.rows.isEmpty then Json.null else Json.arr (t.rows.map marshalMssqlCity)) ∧
    (createCitiesMssql (some CitiesTable.db) ResponseWriter.fresh request2 t).1.status = some 200 ∧
    parseJson (createCitiesMssql (some CitiesTable.db) ResponseWriter.fresh request2 t).1.response.body =
      some (Json.num t.identity 0) ∧
    (getCitiesMssql (some CitiesTable.db) ResponseWriter.fresh request3
      (createCitiesMssql (some CitiesTable.db) ResponseWriter.fresh request2 t).2).1.status =
        some 200 ∧
    parseJson (getCitiesMssql (some CitiesTable.db) ResponseWriter.fresh request3
      (createCitiesMssql (some CitiesTable.db) ResponseWriter.fresh request2 t).2).1.response.body =
      some (Json.arr (t.rows.map marshalMssqlCity ++
        [Json.obj [("ID", Json.num t.identity 0), ("Name", Json.str "Warsaw"),
          ("Country", Json.str "Poland")]])) ∧
    (∀ e ∈ t.rows.map marshalMssqlCity, e.member "ID" ≠ some (Json.num t.identity 0)) ∧
    (createCitiesMssql (some CitiesTable.db) ResponseWriter.fresh request2 t).2.wellFormed ∧
    (createCitiesMssql (some CitiesTable.db) ResponseWriter.fresh request2
      CitiesTable.empty).1.response.body = "1\n" ∧
    (getCitiesMssql (some CitiesTable.db) ResponseWriter.fresh request3
      (createCitiesMssql (some CitiesTable.db) ResponseWriter.fresh request2
        CitiesTable.empty).2).1.response.body =
      "[\x7b\"ID\":1,\"Name\":\"Warsaw\",\"Country\":\"Poland\"\x7d]\n" := by
  have hpost := createCitiesMssql_on_table t request2
  have hget := getCitiesMssql_on_table
    (createCitiesMssql (some CitiesTable.db) ResponseWriter.fresh request2 t).2 request3
  refine ⟨(getCitiesMssql_on_table t request).2, hpost.1, ?_, hget.1, ?_, ?_, ?_, ?_, ?_⟩
  · rw [hpost.2.1]
    exact parseJson_encoded (marshalInt t.identity)
  · rw [hget.2, hpost.2.2]
    simp [marshalMssqlCity, marshalInt]
  · intro e he
    obtain ⟨c, hc, rfl⟩ := List.mem_map.mp he
    rw [marshalMssqlCity_member_ID]
    intro h
    have hlt := hwf c hc
    simp only [Option.some.injEq, Json.num.injEq, and_true] at h
    omega
  · rw [hpost.2.2]
    intro r hr
    simp only [List.mem_append, List.mem_singleton] at hr
    rcases hr with hr | hr
    · have := hwf r hr
      show r.ID < t.identity + 1
      omega
    · subst hr
      show t.identity < t.identity + 1
      omega
  · exact (createCitiesMssql_on_table CitiesTable.empty request2).2.1.trans (by decide)
  · have h1 := (createCitiesMssql_on_table CitiesTable.empty request2).2.2
    have h2 := getCitiesMssql_all_rows_scanned CitiesTable.db request3 _ _ _
      ((createCitiesMssql (some CitiesTable.db) ResponseWriter.fresh request2
        CitiesTable.empty).2.rows.map fun r => (r.ID, r.Name, r.Country)) rfl
      (citiesTable_select _)
    rw [h2.2, h1]
    decide

/-- C9 (instance): a table that already holds one row. -/
theorem post_then_get_lists_the_new_row_witness :
    CitiesTable.wellFormed ⟨[⟨1, "Oslo", "Norway"⟩], 2⟩ ∧
    parseJson (createCitiesMssql (some CitiesTable.db) ResponseWriter.fresh
      (emptyRequest "POST" "/mssql/cities") ⟨[⟨1, "Oslo", "Norway"⟩], 2⟩).1.response.body =
      some (Json.num 2 0) ∧
    parseJson (getCitiesMssql (some CitiesTable.db) ResponseWriter.fresh
      (emptyRequest "GET" "/mssql/cities")
      (createCitiesMssql (some CitiesTable.db) ResponseWriter.fresh
        (emptyRequest "POST" "/mssql/cities") ⟨[⟨1, "Oslo", "Norway"⟩], 2⟩).2).1.response.body =
      some (Json.arr ([marshalMssqlCity ⟨1, "Oslo", "Norway"⟩] ++
        [Json.obj [("ID", Json.num 2 0), ("Name", Json.str "Warsaw"),
          ("Country", Json.str "Poland")]])) :=
  have hwf : CitiesTable.wellFormed ⟨[⟨1, "Oslo", "Norway"⟩], 2⟩ := by
    intro r hr
    simp only [List.mem_singleton] at hr
    subst hr
    decide
  have h := post_then_get_lists_the_new_row ⟨[⟨1, "Oslo", "Norway"⟩], 2⟩ hwf
    (emptyRequest "GET" "/mssql/cities") (emptyRequest "POST" "/mssql/cities")
    (emptyRequest "GET" "/mssql/cities")
  ⟨hwf, h.2.2.1, h.2.2.2.2.1⟩

end CitiesService
